import Mathlib

/-!
Verification development for the flowly-backend command-resolution and
transaction-orchestration engine.

The definitions below are a shallow embedding of the TypeScript sources:

* `src/services/langchainService.ts` — intent matchers, the transfer /
  swap request parsers, amount conversion (big.js), the token registry
  (`SUPPORTED_TOKENS`, `getDecimalsByAliasOrId`), the direct transfer
  fast path of `processMessage`, the `transfer-asset` LangChain tool,
  and `summarizeUserBalances`.
* `src/services/telegramBotService.ts` — the per-user conversation
  window (`conversationHistory`) updated by `handleConversationMessage`
  and cleared by `handleStopConversation`.

Strings are modelled as `List Char`.  JavaScript regular expressions are
embedded as hand-rolled leftmost, greedy, backtracking matchers written
in continuation-passing style; `big.js` decimal arithmetic is embedded
over `ℕ`/`ℚ` (values are exact rationals, `Big` division carries 20
decimal places with round-half-up, `toFixed(6)` rounds half-up,
`round(0, 0)` truncates toward zero).
-/

namespace Flowly

/-- Convert a Lean string literal to the character-list representation. -/
def strL (s : String) : List Char := s.data

/-- The apostrophe character (U+0027). -/
def apos : Char := Char.ofNat 39

/-- ASCII lower-casing, as `String.prototype.toLowerCase` acts on the
ASCII range (the only range exercised by the matchers). -/
def jsToLower (c : Char) : Char :=
  if 65 ≤ c.toNat ∧ c.toNat ≤ 90 then Char.ofNat (c.toNat + 32) else c

/-- `text.replace(/[’`]/g, "'")` on a single character: the right single
quotation mark (U+2019) and the backtick (U+0060) become an apostrophe. -/
def normQuoteChar (c : Char) : Char :=
  if c.toNat = 8217 ∨ c.toNat = 96 then apos else c

/-- Lower-cased copy of the message (`userMessage.toLowerCase()`). -/
def lowerL (l : List Char) : List Char := l.map jsToLower

/-- `normLower` in `processMessage`: lower-cased, quotes unified. -/
def normLowerL (l : List Char) : List Char := (lowerL l).map normQuoteChar

/-- `normQuotes` in `processMessage`: original case, quotes unified. -/
def normQuotesL (l : List Char) : List Char := l.map normQuoteChar

/-- JavaScript regex `\s` (the whitespace characters used in practice:
space, tab, line feed, vertical tab, form feed, carriage return). -/
def isSpaceChar (c : Char) : Bool :=
  c.toNat = 32 ∨ c.toNat = 9 ∨ c.toNat = 10 ∨ c.toNat = 11 ∨
  c.toNat = 12 ∨ c.toNat = 13

/-- JavaScript regex `[0-9]`. -/
def isDigitChar (c : Char) : Bool := 48 ≤ c.toNat ∧ c.toNat ≤ 57

/-- JavaScript regex `\w` (ASCII word character), used for `\b`. -/
def isWordChar (c : Char) : Bool :=
  (97 ≤ c.toNat ∧ c.toNat ≤ 122) ∨ (65 ≤ c.toNat ∧ c.toNat ≤ 90) ∨
  (48 ≤ c.toNat ∧ c.toNat ≤ 57) ∨ c.toNat = 95

/-- Character class `[a-z0-9_-]` under the `/i` flag (same set as
`[A-Za-z0-9_-]`): token aliases and recipient addresses. -/
def tokenChar (c : Char) : Bool :=
  (97 ≤ c.toNat ∧ c.toNat ≤ 122) ∨ (65 ≤ c.toNat ∧ c.toNat ≤ 90) ∨
  (48 ≤ c.toNat ∧ c.toNat ≤ 57) ∨ c.toNat = 95 ∨ c.toNat = 45

/-- Substring test (`String.prototype.includes`). -/
def isSubL (needle hay : List Char) : Bool :=
  match hay with
  | [] => needle.isPrefixOf ([] : List Char)
  | _ :: t => needle.isPrefixOf hay || isSubL needle t

/-- Prefix test (`String.prototype.startsWith`). -/
def startsWithL (needle hay : List Char) : Bool := needle.isPrefixOf hay

/-! ### Greedy backtracking regex combinators (CPS)

Each combinator consumes from the head of a `List Char` and calls a
continuation on the remainder; greedy pieces try the longest consumption
first and backtrack on continuation failure, matching the JavaScript
regex engine on the patterns embedded below. -/

/-- Try `k i` for `i = min + fuel, min + fuel - 1, …, min`, first success
wins (greedy repetition with backtracking). -/
def tryDesc {R : Type} (k : ℕ → Option R) (min : ℕ) : ℕ → Option R
  | 0 => k min
  | f + 1 =>
    match k (min + f + 1) with
    | some r => some r
    | none => tryDesc k min f

/-- Greedy `p{min,}`: consume between `min` and the maximal run of
characters satisfying `p`, longest first; the continuation receives the
consumed characters and the rest. -/
def matchClass {R : Type} (p : Char → Bool) (min : ℕ) (l : List Char)
    (k : List Char → List Char → Option R) : Option R :=
  let n := (l.takeWhile p).length
  if n < min then none
  else tryDesc (fun i => k (l.take i) (l.drop i)) min (n - min)

/-- Case-insensitive literal (all embedded regexes carry `/i`). -/
def litCI {R : Type} (s : List Char) (l : List Char)
    (k : List Char → Option R) : Option R :=
  match s, l with
  | [], rest => k rest
  | _ :: _, [] => none
  | a :: s, c :: l => if jsToLower a = jsToLower c then litCI s l k else none

/-- `\s+` (greedy, with backtracking like every repetition). -/
def spaces1 {R : Type} (l : List Char) (k : List Char → Option R) :
    Option R :=
  matchClass isSpaceChar 1 l (fun _ rest => k rest)

/-- `\s*`. -/
def spaces0 {R : Type} (l : List Char) (k : List Char → Option R) :
    Option R :=
  matchClass isSpaceChar 0 l (fun _ rest => k rest)

/-- Scan positions left to right requiring a `\b` word boundary before
the match.  Every embedded `\b` pattern starts with a mandatory word
character, for which the boundary condition is exactly "at the start of
the text, or preceded by a non-word character". -/
def scanBdry {R : Type} (tryAt : List Char → Option R) :
    Option Char → List Char → Option R
  | prev, [] =>
    if prev.all (fun c => ¬ isWordChar c) then tryAt [] else none
  | prev, c :: rest =>
    match (if prev.all (fun c => ¬ isWordChar c) then tryAt (c :: rest)
           else none) with
    | some r => some r
    | none => scanBdry tryAt (some c) rest

/-- Scan positions left to right with no boundary requirement. -/
def scanAny {R : Type} (tryAt : List Char → Option R) :
    List Char → Option R
  | [] => tryAt []
  | c :: rest =>
    match tryAt (c :: rest) with
    | some r => some r
    | none => scanAny tryAt rest

/-! ### The five regexes of the intent resolver -/

/-- ASCII upper-casing (`String.prototype.toUpperCase` on ASCII). -/
def jsToUpper (c : Char) : Char :=
  if 97 ≤ c.toNat ∧ c.toNat ≤ 122 then Char.ofNat (c.toNat - 32) else c

/-- Upper-cased copy of a string. -/
def upperL (l : List Char) : List Char := l.map jsToUpper

/-- `allRe` tail `\s+to\s+([A-Za-z0-9_-]{20,})` after the alias capture. -/
def kRecAll (sym : List Char) (l : List Char) :
    Option (List Char × List Char) :=
  spaces1 l fun l2 =>
  litCI (strL "to") l2 fun l3 =>
  spaces1 l3 fun l4 =>
  matchClass tokenChar 20 l4 fun recip _ => some (sym, recip)

/-- `allRe` optional `(?:\s+tokens?)?` after the alias capture (greedy:
with the group, with and without its final `s`, then without the
group). -/
def kTokAll (sym : List Char) (l : List Char) :
    Option (List Char × List Char) :=
  (spaces1 l fun l2 =>
    litCI (strL "token") l2 fun l3 =>
      ((litCI (strL "s") l3 fun l4 => kRecAll sym l4) <|> kRecAll sym l3))
  <|> kRecAll sym l

/-- `allRe` after `(all|max)`: optional `(?:\s+my)?`, then `\s+` and the
alias capture `([a-z0-9_-]{2,})`. -/
def kAfterAll (l : List Char) : Option (List Char × List Char) :=
  (spaces1 l fun l2 =>
    litCI (strL "my") l2 fun l3 =>
    spaces1 l3 fun l4 =>
    matchClass tokenChar 2 l4 kTokAll)
  <|> (spaces1 l fun l2 => matchClass tokenChar 2 l2 kTokAll)

/-- `allRe` after the verb: `\s+(all|max)` then the rest. -/
def kVerbAll (l : List Char) : Option (List Char × List Char) :=
  spaces1 l fun l2 =>
  ((litCI (strL "all") l2 kAfterAll) <|> (litCI (strL "max") l2 kAfterAll))

/-- Attempt of
`\b(send|transfer)\s+(all|max)(?:\s+my)?\s+([a-z0-9_-]{2,})(?:\s+tokens?)?\s+to\s+([A-Za-z0-9_-]{20,})`
(`allRe` in `parseTransferRequest`) at one position, yielding
(sym capture `m[3]`, recipient capture `m[4]`). -/
def matchTransferAllAt (l : List Char) :
    Option (List Char × List Char) :=
  (litCI (strL "send") l kVerbAll) <|> (litCI (strL "transfer") l kVerbAll)

/-- Attempt of
`\b(send|transfer)\s+([0-9]+(?:\.[0-9]+)?)\s*([a-z0-9_-]{2,})(?:\s+tokens?)?\s+to\s+([A-Za-z0-9_-]{20,})`
(`amtRe` in `parseTransferRequest`) at one position, yielding
(amount `m[2]`, sym `m[3]`, recipient `m[4]`). -/
def matchTransferAmtAt (l : List Char) :
    Option (List Char × List Char × List Char) :=
  let kRec : List Char → List Char → List Char →
      Option (List Char × List Char × List Char) :=
    fun amt sym l5 =>
      spaces1 l5 fun l6 =>
      litCI (strL "to") l6 fun l7 =>
      spaces1 l7 fun l8 =>
      matchClass tokenChar 20 l8 fun recip _ => some (amt, sym, recip)
  let kTok : List Char → List Char → List Char →
      Option (List Char × List Char × List Char) :=
    fun amt sym l4 =>
      (spaces1 l4 fun l5 =>
        litCI (strL "token") l5 fun l6 =>
          ((litCI (strL "s") l6 fun l7 => kRec amt sym l7)
            <|> kRec amt sym l6))
      <|> kRec amt sym l4
  let kAmt : List Char → List Char →
      Option (List Char × List Char × List Char) :=
    fun amt l3 =>
      spaces0 l3 fun l4 =>
      matchClass tokenChar 2 l4 fun sym l5 => kTok amt sym l5
  let kVerb : List Char → Option (List Char × List Char × List Char) :=
    fun l1 =>
      spaces1 l1 fun l2 =>
      matchClass isDigitChar 1 l2 fun d1 l3 =>
        ((litCI (strL ".") l3 fun l4 =>
            matchClass isDigitChar 1 l4 fun d2 l5 =>
              kAmt (d1 ++ strL "." ++ d2) l5)
          <|> kAmt d1 l3)
  (litCI (strL "send") l kVerb) <|> (litCI (strL "transfer") l kVerb)

/-- Swap pattern tail `\s+([a-z0-9_-]{2,})\s+to\s+([a-z0-9_-]{2,})`
after the amount capture. -/
def kFromSwap (amt : List Char) (l : List Char) :
    Option (List Char × List Char × List Char) :=
  spaces1 l fun l2 =>
  matchClass tokenChar 2 l2 fun fromSym l3 =>
  spaces1 l3 fun l4 =>
  litCI (strL "to") l4 fun l5 =>
  spaces1 l5 fun l6 =>
  matchClass tokenChar 2 l6 fun toSym _ => some (amt, fromSym, toSym)

/-- Attempt of
`\bswap\s+([0-9]+(?:\.[0-9]+)?)\s+([a-z0-9_-]{2,})\s+to\s+([a-z0-9_-]{2,})`
(`parseSwapRequest`) at one position, yielding (amount, from, to). -/
def matchSwapAt (l : List Char) :
    Option (List Char × List Char × List Char) :=
  litCI (strL "swap") l fun l1 =>
  spaces1 l1 fun l2 =>
  matchClass isDigitChar 1 l2 fun d1 l3 =>
    ((litCI (strL ".") l3 fun l4 =>
        matchClass isDigitChar 1 l4 fun d2 l5 =>
          kFromSwap (d1 ++ strL "." ++ d2) l5)
      <|> kFromSwap d1 l3)

/-- Attempt of `(what'?s|what\s+is)\s+my\s+([a-z0-9_-]{2,})\s+balance`
(`parseSpecificBalanceRequest`) at one position, yielding the sym. -/
def matchSpecificAt (l : List Char) : Option (List Char) :=
  let kTail : List Char → Option (List Char) := fun l1 =>
    spaces1 l1 fun l2 =>
    litCI (strL "my") l2 fun l3 =>
    spaces1 l3 fun l4 =>
    matchClass tokenChar 2 l4 fun sym l5 =>
    spaces1 l5 fun l6 =>
    litCI (strL "balance") l6 fun _ => some sym
  (litCI (strL "what") l fun l1 =>
    ((litCI [apos] l1 fun l2 => litCI (strL "s") l2 kTail)
      <|> litCI (strL "s") l1 kTail))
  <|> (litCI (strL "what") l fun l1 =>
    spaces1 l1 fun l2 => litCI (strL "is") l2 kTail)

/-- Attempt of
`\b(list\s+balances\s+for|holders\s+for)\s+([A-Za-z0-9_-]{20,})`
(the `listBalancesForTokenMatch` regex) at one position, yielding the
process-id capture. -/
def matchListAt (l : List Char) : Option (List Char) :=
  let kTail : List Char → Option (List Char) := fun l1 =>
    spaces1 l1 fun l2 =>
    matchClass tokenChar 20 l2 fun pid _ => some pid
  (litCI (strL "list") l fun l1 =>
    spaces1 l1 fun l2 =>
    litCI (strL "balances") l2 fun l3 =>
    spaces1 l3 fun l4 =>
    litCI (strL "for") l4 kTail)
  <|> (litCI (strL "holders") l fun l1 =>
    spaces1 l1 fun l2 =>
    litCI (strL "for") l2 kTail)

/-- Parsed transfer request (`parseTransferRequest` return shape; the
TypeScript type marks `tokenSymbol` optional but both branches set it). -/
structure TransferParsed where
  amountRaw : List Char
  recipient : List Char
  isAll : Bool
  tokenSymbol : List Char
deriving DecidableEq

/-- `parseTransferRequest`: try `allRe`, then `amtRe` (first match of
each over the whole text, leftmost position first). -/
def parseTransferRequest (text : List Char) : Option TransferParsed :=
  match scanBdry matchTransferAllAt none text with
  | some (sym, recip) =>
    some { amountRaw := strL "all", recipient := recip, isAll := true,
           tokenSymbol := sym }
  | none =>
    match scanBdry matchTransferAmtAt none text with
    | some (amt, sym, recip) =>
      some { amountRaw := amt, recipient := recip, isAll := false,
             tokenSymbol := sym }
    | none => none

/-- Parsed swap request (`parseSwapRequest` return shape). -/
structure SwapParsed where
  amountRaw : List Char
  fromSymbol : List Char
  toSymbol : List Char
deriving DecidableEq

/-- `parseSwapRequest`. -/
def parseSwapRequest (text : List Char) : Option SwapParsed :=
  match scanBdry matchSwapAt none text with
  | some (a, f, t) =>
    some { amountRaw := a, fromSymbol := f, toSymbol := t }
  | none => none

/-- `parseSpecificBalanceRequest`: sym capture upper-cased (the
`AO`/`ARIO` conditional in the source returns `alias` on both sides). -/
def parseSpecificBalanceRequest (text : List Char) : Option (List Char) :=
  (scanAny matchSpecificAt text).map upperL

/-- The `listBalancesForTokenMatch` regex match, capture `m[2]`. -/
def listBalancesMatch (text : List Char) : Option (List Char) :=
  scanBdry matchListAt none text

/-! ### Token registry (`SUPPORTED_TOKENS`, `getDecimalsByAliasOrId`) -/

/-- The configuration slice consumed by the engine (`config.ao`).  Joi
validation supplies the defaults below; the decimals fields are always
numbers, so the `?? 12` / `?? 6` fallbacks in `getDecimalsByAliasOrId`
never fire and are absorbed into these fields. -/
structure AoConfig where
  nativeTokenProcessId : List Char
  nativeTokenDecimals : ℕ
  arioTokenProcessId : List Char
  arioTokenDecimals : ℕ
  trackedTokens : Option (List (List Char))

/-- The default configuration (`environment.ts` Joi defaults). -/
def defaultConfig : AoConfig where
  nativeTokenProcessId := strL "0syT13r0s0tgPmIed95bJnuSqaD29HQNN8D3ElLSrsc"
  nativeTokenDecimals := 12
  arioTokenProcessId := strL "qNvAoz0TgcH7DMg8BCVn8jF32QH5L6T29VjHxhHqqGE"
  arioTokenDecimals := 6
  trackedTokens := none

/-- `SUPPORTED_TOKENS`, in object insertion order. -/
def supportedTokens (cfg : AoConfig) : List (List Char × List Char) :=
  [ (strL "AO", cfg.nativeTokenProcessId),
    (strL "ARIO", cfg.arioTokenProcessId),
    (strL "WAR", strL "xU9zFkq3X2ZQ6olwNVvr1vUWIjc3kXTWr7xKQD6dh10"),
    (strL "WUSDC", strL "7zH9dlMNoxprab9loshv3Y7WG45DOny_Vrq9KrXObdQ"),
    (strL "WUSDT", strL "7j3jUyFpTuepg_uu_sJnwLE6KiTVuA9cLrkfOp2MFlo"),
    (strL "WETH", strL "cBgS-V_yGhOe9P1wCIuNSgDA_JS8l4sE5iFcPTr0TD0"),
    (strL "USDA", strL "FBt9A5GA_KXMMSxA2DJ0xZbAq8sLLU2ak-YJe9zDvg8"),
    (strL "VAR", strL "y-p7CPhs6JMUStAuE4KeTnMXN7qYBvEi2hiBFk8ZhjM"),
    (strL "VUSDC", strL "cxkFiGP89fEKOvbvl9SLs1lEaw0L-DWJiqQOuDPeDG8"),
    (strL "VDAI", strL "Q5Qk5W_AOUou2nRu1RlEpfr8yzKmWJ98tQb8QEyYqx4"),
    (strL "VETH", strL "SGUZMZ1toA4k5wlDNyDtHQThf1SEAOLNwiE8TzsnSgw") ]

/-- `SUPPORTED_TOKENS[key]` (`none` = `undefined`). -/
def lookupToken (cfg : AoConfig) (key : List Char) : Option (List Char) :=
  (supportedTokens cfg).lookup key

/-- JavaScript truthiness for an optional string: `undefined` and the
empty string are falsy. -/
def truthyStr (s : Option (List Char)) : Bool :=
  match s with
  | some x => x ≠ []
  | none => false

/-- `resolveTokenIdByAlias`: `SUPPORTED_TOKENS[alias.toUpperCase()] || null`. -/
def resolveTokenIdByAlias (cfg : AoConfig) (sym : List Char) :
    Option (List Char) :=
  match lookupToken cfg (upperL sym) with
  | some p => if p = [] then none else some p
  | none => none

/-- The `aliasToDecimals` record in `getDecimalsByAliasOrId`. -/
def aliasToDecimals (cfg : AoConfig) : List (List Char × ℕ) :=
  [ (strL "AO", cfg.nativeTokenDecimals),
    (strL "ARIO", cfg.arioTokenDecimals),
    (strL "WETH", 18), (strL "VETH", 18), (strL "WAR", 12),
    (strL "WUSDC", 12), (strL "WUSDT", 12), (strL "USDA", 12),
    (strL "VAR", 12), (strL "VUSDC", 12), (strL "VDAI", 12) ]

/-- `getDecimalsByAliasOrId`: alias lookup first (with `?? 6` fallback),
then reverse lookup by process id, else 0. -/
def getDecimalsByAliasOrId (cfg : AoConfig) (token : List Char) : ℕ :=
  let upper := upperL token
  if truthyStr (lookupToken cfg upper) then
    ((aliasToDecimals cfg).lookup upper).getD 6
  else
    match (supportedTokens cfg).find? (fun e => e.2 = token) with
    | some e => ((aliasToDecimals cfg).lookup e.1).getD 6
    | none => 0

/-! ### big.js decimal arithmetic

A non-negative decimal string with `f` fractional digits is modelled as
`Dec` with numerator `m`, denoting the rational `m / 10 ^ f`. -/

/-- A non-negative decimal numeral: value `m / 10 ^ f`. -/
structure Dec where
  m : ℕ
  f : ℕ
deriving DecidableEq

/-- The rational value of a decimal numeral. -/
def Dec.val (x : Dec) : ℚ := (x.m : ℚ) / (10 : ℚ) ^ x.f

/-- Digits-to-number (`l` consists of `[0-9]` characters). -/
def natOfDigits (l : List Char) : ℕ :=
  l.foldl (fun a c => a * 10 + (c.toNat - 48)) 0

/-- Parse a plain non-negative decimal numeral `digits[.digits]`, the
shape accepted by the `Big` constructor that the code paths below feed
it (the constructor additionally accepts signs, a bare leading or
trailing point and exponents, none of which these paths produce). -/
def decOfDigits (l : List Char) : Option Dec :=
  let ds := l.takeWhile isDigitChar
  let rest := l.drop ds.length
  if ds = [] then none
  else
    match rest with
    | [] => some ⟨natOfDigits ds, 0⟩
    | c :: fs =>
      if c = '.' ∧ fs ≠ [] ∧ fs.all isDigitChar then
        some ⟨natOfDigits (ds ++ fs), fs.length⟩
      else none

/-- `Big(s)` as a rational, for the zero-balance filter: an optional
leading minus sign, then a decimal numeral; `none` models a constructor
throw. -/
def bigParseQ (l : List Char) : Option ℚ :=
  match l with
  | c :: r =>
    if c.toNat = 45 then (decOfDigits r).map (fun d => -(d.val))
    else (decOfDigits l).map Dec.val
  | [] => none

/-- Round-half-up division `p / q` (the big.js default rounding mode
`RM = 1` used by `div` and `toFixed`). -/
def roundHalfUp (p q : ℕ) : ℕ := (2 * p + q) / (2 * q)

/-- `Big(x).times(Big(10).pow(d)).round(0, 0)`: multiply into base
units and truncate toward zero (rounding mode 0 = round-down). -/
def toBaseUnits (x : Dec) (d : ℕ) : ℕ := x.m * 10 ^ d / 10 ^ x.f

/-- Strip trailing fractional zeros: the combined effect of
`.replace(/\.0+$/, "").replace(/(\.\d*?)0+$/, "$1")` on a numeral
rendered with `f` fractional digits. -/
def canonDec : ℕ → ℕ → Dec
  | m, 0 => ⟨m, 0⟩
  | m, f + 1 => if m % 10 = 0 then canonDec (m / 10) f else ⟨m, f + 1⟩

/-- `formatAmountWithDecimals` on an already-parsed numeral: with
`d > 0` it computes `big.div(Big(10).pow(d))` (division carries
`Big.DP = 20` decimal places, round-half-up), renders it with
`.toFixed(6)` (round-half-up to 6 fractional digits) and strips
trailing fractional zeros; with `d = 0` it returns `big.toString()`
(the normalized numeral). -/
def formatAmountDec (x : Dec) (d : ℕ) : Dec :=
  if 0 < d then
    let n20 := roundHalfUp (x.m * 10 ^ 20) (10 ^ (x.f + d))
    let n6 := roundHalfUp n20 (10 ^ 14)
    canonDec n6 6
  else canonDec x.m x.f

/-- Decimal digit character. -/
def digitChar (n : ℕ) : Char := Char.ofNat (48 + n)

/-- Decimal digits with a structural fuel (the fuel only needs to cover
the digit count; `natChars` passes `n + 1`). -/
def natCharsAux : ℕ → ℕ → List Char
  | 0, _ => []
  | fuel + 1, n =>
    if n < 10 then [digitChar n]
    else natCharsAux fuel (n / 10) ++ [digitChar (n % 10)]

/-- Decimal digits of a natural number (`Big#toString` / `String(n)` for
integers in the plain-notation range). -/
def natChars (n : ℕ) : List Char := natCharsAux (n + 1) n

/-- Left-pad with zeros to width `n`. -/
def padZeros (n : ℕ) (s : List Char) : List Char :=
  List.replicate (n - s.length) (Char.ofNat 48) ++ s

/-- Render a decimal numeral as its digit string. -/
def Dec.render (x : Dec) : List Char :=
  if x.f = 0 then natChars x.m
  else natChars (x.m / 10 ^ x.f) ++ strL "." ++
    padZeros x.f (natChars (x.m % 10 ^ x.f))

/-- `new Big(amtRaw).times(new Big(10).pow(d)).round(0, 0).toString()`
on a raw amount string; `none` models a `Big` constructor throw. -/
def timesPowRound0Str (amountRaw : List Char) (d : ℕ) :
    Option (List Char) :=
  (decOfDigits amountRaw).map (fun x => natChars (toBaseUnits x d))

/-! ### Network effects and oracles -/

/-- Blockchain network calls issued by the engine. -/
inductive AoCall
  | balanceQuery (process target : List Char)
  | balancesQuery (process : List Char)
  | transferMsg (process recipient quantity : List Char)
  | resultFetch (message process : List Char)
deriving DecidableEq

/-- `Messages[0]` of a balance dry-run reply: the fields the code
inspects (`Data`, the `Balance` tag, the `Ticker` tag). -/
structure BalReply where
  data : Option (List Char)
  balanceTag : Option (List Char)
  tickerTag : Option (List Char)

/-- Outcome of one balance dry-run: a thrown error, or a reply whose
`Messages[0]` may be absent. -/
inductive BalOutcome
  | throw
  | reply (msg : Option BalReply)

/-- `a || dflt` for an optional string (`undefined`/empty are falsy). -/
def orFalsy (a : Option (List Char)) (dflt : List Char) : List Char :=
  match a with
  | some x => if x = [] then dflt else x
  | none => dflt

/-- `msg?.Data || msg?.Tags?.find(t => t.name === "Balance")?.value || "0"`:
the raw-balance extraction used by `getRawBalance`,
`summarizeUserBalances` and `getFormattedUserBalanceForToken`. -/
def extractRaw (msg : Option BalReply) : List Char :=
  match msg with
  | none => strL "0"
  | some r => orFalsy r.data (orFalsy r.balanceTag (strL "0"))

/-- The stored user record as the executors see it
(`getUserByTelegramId` result). -/
structure UserRec where
  walletAddress : List Char
  hasEncryptedKey : Bool

/-- Outcome of `aoConnect.result` (the single confirmation poll). -/
inductive PollOutcome
  | throw
  | ok (errorMsg : Option (List Char)) (output : Option (List Char))

/-- External collaborators of one `processMessage` run: the user store,
the network balance reads, the submit acknowledgement and the
confirmation poll. -/
structure Oracles where
  user : Option UserRec
  balanceReply : List Char → List Char → BalOutcome
  submitId : List Char
  poll : PollOutcome

/-- Response plus the list of network calls issued, in order. -/
structure ExecResult where
  response : List Char
  calls : List AoCall
deriving DecidableEq

/-! ### Transfer executors -/

/-- JavaScript `String.prototype.trim` (whitespace only). -/
def trimL (l : List Char) : List Char :=
  ((l.dropWhile isSpaceChar).reverse.dropWhile isSpaceChar).reverse

/-- `parseFloat`: optional sign then a decimal-numeral prefix; `none`
models `NaN`.  (Exponents and `Infinity` are not modelled; no caller
below distinguishes them.) -/
def jsParseFloat (l : List Char) : Option ℚ :=
  let core : List Char → Option ℚ := fun s =>
    let ds := s.takeWhile isDigitChar
    let r1 := s.drop ds.length
    match r1 with
    | c :: r2 =>
      if c = '.' then
        let fs := r2.takeWhile isDigitChar
        if ds = [] ∧ fs = [] then none
        else some ((natOfDigits ds : ℚ) +
          (natOfDigits fs : ℚ) / (10 : ℚ) ^ fs.length)
      else if ds = [] then none else some (natOfDigits ds)
    | [] => if ds = [] then none else some (natOfDigits ds)
  match l.dropWhile isSpaceChar with
  | c :: r =>
    if c.toNat = 45 then (core r).map Neg.neg
    else if c.toNat = 43 then core r
    else core (c :: r)
  | [] => none

/-- Display symbol used in the success text:
`tokenSymbol?.toUpperCase() || reverse lookup by process id || "TOKENS"`. -/
def displaySym (cfg : AoConfig) (tokenSymbol : Option (List Char))
    (pid : List Char) : List Char :=
  let symU := (tokenSymbol.map upperL).getD []
  if symU ≠ [] then symU
  else
    match (supportedTokens cfg).find? (fun e => e.2 = pid) with
    | some e => if e.1 = [] then strL "TOKENS" else e.1
    | none => strL "TOKENS"

/-- The direct-transfer fast path of `processMessage` (the body run on a
successful `parseTransferRequest`): wallet check, token resolution,
quantity determination (balance fetch for `isAll`, decimal conversion
only when the token has positive decimals and the amount contains a
decimal point), message submission and one ignored confirmation poll. -/
def directTransferExec (cfg : AoConfig) (o : Oracles) (p : TransferParsed) :
    ExecResult :=
  match o.user with
  | none =>
    ⟨strL "Wallet not found. Please create a wallet first using /start", []⟩
  | some u =>
    if u.walletAddress = [] ∨ ¬ u.hasEncryptedKey then
      ⟨strL "Wallet not found. Please create a wallet first using /start", []⟩
    else
      match (if p.tokenSymbol ≠ [] then lookupToken cfg (upperL p.tokenSymbol)
             else some cfg.nativeTokenProcessId) with
      | none => ⟨strL "❌ Token not supported.", []⟩
      | some pid =>
        if pid = [] then ⟨strL "❌ Token not supported.", []⟩
        else
          let finish : List Char → List AoCall → ExecResult :=
            fun quantity pre =>
              ⟨strL "✅ Transfer initiated!\n- Amount: " ++
                 (if p.isAll then strL "ALL" else p.amountRaw) ++
                 strL " " ++ displaySym cfg (some p.tokenSymbol) pid ++
                 strL "\n- Recipient: `" ++ p.recipient ++
                 strL "`\n- TxID: `" ++ o.submitId ++ strL "`",
               pre ++ [AoCall.transferMsg pid p.recipient quantity,
                       AoCall.resultFetch o.submitId pid]⟩
          if p.isAll then
            match o.balanceReply pid u.walletAddress with
            | BalOutcome.throw =>
              ⟨strL "❌ Transfer error: Unknown error",
               [AoCall.balanceQuery pid u.walletAddress]⟩
            | BalOutcome.reply msg =>
              let bal := extractRaw msg
              if bal = strL "0" then
                ⟨strL "❌ Insufficient balance.",
                 [AoCall.balanceQuery pid u.walletAddress]⟩
              else finish bal [AoCall.balanceQuery pid u.walletAddress]
          else
            let decs := getDecimalsByAliasOrId cfg pid
            if 0 < decs ∧ p.amountRaw.any (fun c => c = '.') then
              match timesPowRound0Str p.amountRaw decs with
              | none => ⟨strL "❌ Transfer error: Invalid number", []⟩
              | some q => finish q []
            else finish p.amountRaw []

/-- `transfer-asset` tool input (`TransferAssetParams`). -/
structure TransferAssetParams where
  recipientAddress : List Char
  amount : List Char
  tokenProcessId : Option (List Char)
  tokenSymbol : Option (List Char)

/-- The `transfer-asset` LangChain tool body (`createTransferAssetTool`):
required-field check, `parseFloat` positivity check, wallet check, token
resolution, all/max balance substitution, unconditional decimal
conversion otherwise, submission, fixed delay and one confirmation
poll. -/
def toolTransferExec (cfg : AoConfig) (o : Oracles)
    (params : TransferAssetParams) : ExecResult :=
  if params.recipientAddress = [] ∨ params.amount = [] then
    ⟨strL "Error: Both recipientAddress and amount are required", []⟩
  else
    match jsParseFloat params.amount with
    | none => ⟨strL "Error: Amount must be a positive number", []⟩
    | some q =>
      if q ≤ 0 then ⟨strL "Error: Amount must be a positive number", []⟩
      else
        match o.user with
        | none =>
          ⟨strL "Error: User wallet not found. Please create a wallet first using /start",
           []⟩
        | some u =>
          if u.walletAddress = [] ∨ ¬ u.hasEncryptedKey then
            ⟨strL "Error: User wallet not found. Please create a wallet first using /start",
             []⟩
          else
            match (if truthyStr params.tokenSymbol then
                     lookupToken cfg (upperL (params.tokenSymbol.getD []))
                   else if truthyStr params.tokenProcessId then
                     params.tokenProcessId
                   else some cfg.nativeTokenProcessId) with
            | none => ⟨strL "Token not supported.", []⟩
            | some pid =>
              if pid = [] then ⟨strL "Token not supported.", []⟩
              else
                let amtRaw := trimL params.amount
                let finish : List Char → List AoCall → ExecResult :=
                  fun quantity pre =>
                    let calls := pre ++
                      [AoCall.transferMsg pid params.recipientAddress quantity,
                       AoCall.resultFetch o.submitId pid]
                    let sym := displaySym cfg params.tokenSymbol pid
                    match o.poll with
                    | PollOutcome.ok (some e) _ =>
                      ⟨strL "Transfer failed: " ++ e, calls⟩
                    | PollOutcome.ok none out =>
                      ⟨strL "Transfer initiated!\n- Amount: " ++
                         params.amount ++ strL " " ++ sym ++
                         strL "\n- Recipient: `" ++ params.recipientAddress ++
                         strL "`\n- TxID: `" ++ o.submitId ++
                         strL "`\n- Status: " ++
                         orFalsy out (strL "Submitted"), calls⟩
                    | PollOutcome.throw =>
                      ⟨strL "Transfer initiated successfully!\n- Amount: " ++
                         params.amount ++ strL " " ++ sym ++
                         strL "\n- Recipient: `" ++ params.recipientAddress ++
                         strL "`\n- TxID: `" ++ o.submitId ++
                         strL "`\n- Status: Processing", calls⟩
                if lowerL amtRaw = strL "all" ∨ lowerL amtRaw = strL "max" then
                  match o.balanceReply pid u.walletAddress with
                  | BalOutcome.throw =>
                    ⟨strL "Error processing transfer: Unknown error",
                     [AoCall.balanceQuery pid u.walletAddress]⟩
                  | BalOutcome.reply msg =>
                    let bal := extractRaw msg
                    if bal = strL "0" then
                      ⟨strL "Insufficient balance to transfer.",
                       [AoCall.balanceQuery pid u.walletAddress]⟩
                    else finish bal [AoCall.balanceQuery pid u.walletAddress]
                else
                  match timesPowRound0Str amtRaw
                          (getDecimalsByAliasOrId cfg pid) with
                  | none =>
                    ⟨strL "Error processing transfer: Invalid number", []⟩
                  | some qty => finish qty []

/-! ### Balance aggregation (`summarizeUserBalances`) -/

/-- `formatAmountWithDecimals(amount, d)` on the raw string: `Big`
constructor on `amount || 0`; a constructor throw returns
`String(amount)` unchanged. -/
def formatAmountWithDecimals (amount : List Char) (d : ℕ) : List Char :=
  match (if amount = [] then some (⟨0, 0⟩ : Dec) else decOfDigits amount) with
  | none => amount
  | some x => (formatAmountDec x d).render

/-- `pidShort`. -/
def pidShort (pid : List Char) : List Char :=
  pid.take 6 ++ strL "..." ++ pid.drop (pid.length - 4)

/-- `Array.from(new Set(l))`: keep the first occurrence of each element,
in order. -/
def dedupFirstAux (seen : List (List Char)) :
    List (List Char) → List (List Char)
  | [] => []
  | x :: t =>
    if x ∈ seen then dedupFirstAux seen t
    else x :: dedupFirstAux (x :: seen) t

/-- The tracked token set: `config.ao.trackedTokens` when present and
non-empty, else the deduplicated non-empty values of
`SUPPORTED_TOKENS`. -/
def trackedList (cfg : AoConfig) : List (List Char) :=
  let dedupVals :=
    dedupFirstAux [] (((supportedTokens cfg).map Prod.snd).filter (· ≠ []))
  match cfg.trackedTokens with
  | some ts => if ts ≠ [] then ts else dedupVals
  | none => dedupVals

/-- One entry pushed by the `summarizeUserBalances` fetch loop. -/
structure BalEntry where
  ticker : Option (List Char)
  processId : List Char
  amount : List Char
deriving DecidableEq

/-- The zero filter of `summarizeUserBalances`:
`try { return Big(b.amount || 0).gt(0) } catch { return String(b.amount) !== "0" }`. -/
def keepNonZero (b : BalEntry) : Bool :=
  match (if b.amount = [] then some (0 : ℚ) else bigParseQ b.amount) with
  | some v => 0 < v
  | none => b.amount ≠ strL "0"

/-- Display symbol for one summary line. -/
def summarySym (cfg : AoConfig) (b : BalEntry) : List Char :=
  if b.processId = cfg.nativeTokenProcessId then strL "AO"
  else orFalsy b.ticker (pidShort b.processId)

/-- One iteration of the `summarizeUserBalances` fetch loop: the entry
pushed for a tracked token, or `none` when the dry-run throws (the
token is logged and skipped). -/
def fetchBalanceEntry (o : Oracles) (walletAddress pid : List Char) :
    Option BalEntry :=
  match o.balanceReply pid walletAddress with
  | BalOutcome.throw => none
  | BalOutcome.reply msg =>
    some ⟨msg.bind (fun r => r.tickerTag), pid, extractRaw msg⟩

/-- One line of the balances summary. -/
def summaryLine (cfg : AoConfig) (b : BalEntry) : List Char :=
  summarySym cfg b ++ strL ": " ++
  formatAmountWithDecimals b.amount (getDecimalsByAliasOrId cfg b.processId)

/-- `summarizeUserBalances`: wallet check, one balance dry-run per
tracked token (a throwing fetch logs and skips the token), zero-balance
filtering, and the summary text — or the literal `"No balances found."`
when nothing remains. -/
def summarizeUserBalances (cfg : AoConfig) (o : Oracles) : ExecResult :=
  match o.user with
  | none =>
    ⟨strL "Wallet not found. Please create a wallet first using /start", []⟩
  | some u =>
    if u.walletAddress = [] then
      ⟨strL "Wallet not found. Please create a wallet first using /start", []⟩
    else
      let tracked := trackedList cfg
      let calls := tracked.map (fun pid => AoCall.balanceQuery pid u.walletAddress)
      let balances := tracked.filterMap (fetchBalanceEntry o u.walletAddress)
      let nonZero := balances.filter keepNonZero
      if nonZero = [] then ⟨strL "No balances found.", calls⟩
      else
        ⟨strL "Your balances\n" ++
           List.intercalate (strL "\n") (nonZero.map (summaryLine cfg)),
         calls⟩

/-- `getFormattedUserBalanceForToken` (the specific-token-balance
handler): token-id resolution with fall-back to the raw alias, one
balance dry-run, decimals via alias-then-id (`||` on numbers, so 0
falls through), formatting. -/
def getFormattedUserBalanceForToken (cfg : AoConfig) (o : Oracles)
    (sym : List Char) : ExecResult :=
  match o.user with
  | none =>
    ⟨strL "Wallet not found. Please create a wallet first using /start", []⟩
  | some u =>
    if u.walletAddress = [] then
      ⟨strL "Wallet not found. Please create a wallet first using /start", []⟩
    else
      let tokenId := (resolveTokenIdByAlias cfg sym).getD sym
      match o.balanceReply tokenId u.walletAddress with
      | BalOutcome.throw =>
        ⟨strL "Error fetching token balance.",
         [AoCall.balanceQuery tokenId u.walletAddress]⟩
      | BalOutcome.reply msg =>
        let raw := extractRaw msg
        let d1 := getDecimalsByAliasOrId cfg sym
        let decs := if d1 ≠ 0 then d1 else getDecimalsByAliasOrId cfg tokenId
        let pretty := formatAmountWithDecimals raw decs
        let symDisp := if upperL sym = tokenId then pidShort tokenId
                       else upperL sym
        ⟨symDisp ++ strL " Balance\n" ++ pretty ++ strL " " ++ symDisp,
         [AoCall.balanceQuery tokenId u.walletAddress]⟩

/-! ### The fast-path dispatch of `processMessage` -/

/-- `asksForAddress`. -/
def asksForAddress (nl : List Char) : Bool :=
  (isSubL (strL "wallet") nl && isSubL (strL "address") nl) ||
  isSubL (strL "my address") nl ||
  isSubL (strL "what is my address") nl ||
  isSubL (strL "whats my address") nl ||
  isSubL (strL "what" ++ [apos] ++ strL "s my address") nl

/-- `asksForMyBalance`. -/
def asksForMyBalance (nl : List Char) : Bool :=
  isSubL (strL "my balance") nl ||
  isSubL (strL "what" ++ [apos] ++ strL "s my balance") nl ||
  isSubL (strL "whats my balance") nl ||
  (isSubL (strL "balance") nl && isSubL (strL "my") nl)

/-- `asksForTransfer`. -/
def asksForTransfer (nl : List Char) : Bool :=
  startsWithL (strL "send ") nl || startsWithL (strL "transfer ") nl ||
  isSubL (strL " send ") nl || isSubL (strL " transfer ") nl

/-- `asksForSwap`. -/
def asksForSwap (nl : List Char) : Bool :=
  startsWithL (strL "swap ") nl || isSubL (strL " swap ") nl

/-- Which fast-path branch of `processMessage` produced the response. -/
inductive RouteTag
  | address | specificBalance | aggregateBalance | listBalances
  | transfer | swap | agent
deriving DecidableEq

/-- The transfer usage hint (returned when `parseTransferRequest`
fails). -/
def transferHintMsg : List Char :=
  strL "Please specify an amount, token, and recipient. Example: " ++
  [apos] ++ strL "send 0.1 AO to <address>" ++ [apos] ++ strL " or " ++
  [apos] ++ strL "send all USDA to <address>" ++ [apos] ++ strL "."

/-- The swap usage hint (returned when `parseSwapRequest` fails). -/
def swapHintMsg : List Char :=
  strL "Please specify swap like " ++ [apos] ++
  strL "swap 0.1 AO to ARIO" ++ [apos]

/-- Whether the stored user has a wallet (the condition under which the
address fast path answers: `user?.walletAddress` is truthy). -/
def hasWalletO (o : Oracles) : Bool :=
  match o.user with
  | some u => u.walletAddress ≠ []
  | none => false

/-- The ordered fast-path dispatch of `processMessage` (lines 1406–1648):
address query, specific-token balance, aggregate balance, list balances
for token, transfer, swap, and otherwise fall-through to the agent.
The address branch answers only when the stored user has a wallet and
falls through otherwise.  The swap-executor body and the
per-token holder listing are external collaborator calls abstracted as
the `swapExec` and `listExec` parameters (no claim depends on their
bodies); the agent fall-through returns no fast-path response. -/
def processMessageFast (cfg : AoConfig) (o : Oracles)
    (swapExec : SwapParsed → ExecResult)
    (listExec : List Char → ExecResult)
    (msg : List Char) : RouteTag × ExecResult :=
  let nl := normLowerL msg
  let nq := normQuotesL msg
  if asksForAddress nl && hasWalletO o then
    (RouteTag.address,
     ⟨strL "Your wallet address is:\n`" ++
        (match o.user with
         | some u => u.walletAddress
         | none => []) ++ strL "`", []⟩)
  else
    match parseSpecificBalanceRequest nq with
    | some sym =>
      (RouteTag.specificBalance, getFormattedUserBalanceForToken cfg o sym)
    | none =>
      if asksForMyBalance nl then
        (RouteTag.aggregateBalance, summarizeUserBalances cfg o)
      else
        match listBalancesMatch nq with
        | some pid => (RouteTag.listBalances, listExec pid)
        | none =>
          if asksForTransfer nl then
            (RouteTag.transfer,
             match parseTransferRequest nq with
             | none => ⟨transferHintMsg, []⟩
             | some p => directTransferExec cfg o p)
          else if asksForSwap nl then
            (RouteTag.swap,
             match parseSwapRequest nq with
             | none => ⟨swapHintMsg, []⟩
             | some p => swapExec p)
          else (RouteTag.agent, ⟨[], []⟩)

/-! ### Conversation memory (`telegramBotService.ts`) -/

/-- One `ConversationMessage` (role, content, timestamp). -/
structure ConvTurn where
  isUser : Bool
  content : List Char
  timestamp : ℕ
deriving DecidableEq

/-- `arr.slice(-n)`: the last `n` elements (all of them when shorter). -/
def sliceLast {α : Type} (n : ℕ) (l : List α) : List α :=
  l.drop (l.length - n)

/-- The spec-level `append(userId, turn)` operation: push one turn and
keep the last 20 (`handleConversationMessage` pushes two turns per
handled message and then stores `history.slice(-20)`; `appendTwice`
below shows the equivalence). -/
def appendTurn (w : List ConvTurn) (t : ConvTurn) : List ConvTurn :=
  sliceLast 20 (w ++ [t])

/-- The process-wide `conversationHistory: Map<number, ConversationMessage[]>`. -/
def ConvMap : Type := ℕ → Option (List ConvTurn)

/-- `conversationHistory.get(telegramId) || []`. -/
def convGet (m : ConvMap) (k : ℕ) : List ConvTurn := (m k).getD []

/-- The map after `handleConversationMessage` for user `k`: push the
user turn and the assistant turn, store `history.slice(-20)` under `k`. -/
def handleConvMessage (m : ConvMap) (k : ℕ) (u a : ConvTurn) : ConvMap :=
  fun k2 => if k2 = k then some (sliceLast 20 (convGet m k ++ [u, a]))
            else m k2

/-- The context passed to `processMessage`: `history.slice(-10)` taken
after the user turn was pushed. -/
def contextForAgent (m : ConvMap) (k : ℕ) (u : ConvTurn) : List ConvTurn :=
  sliceLast 10 (convGet m k ++ [u])

/-- `handleStopConversation` (the `/stopchat` command):
`conversationHistory.delete(telegramId)`. -/
def handleStopConversation (m : ConvMap) (k : ℕ) : ConvMap :=
  fun k2 => if k2 = k then none else m k2

/-! ### Concrete fixtures (for counterexamples and witnesses) -/

/-- A stored user with a wallet and an encrypted key. -/
def cexUser : UserRec where
  walletAddress := strL "abcdefghijklmnopqrstuvwxyz0123456789abcdefo"
  hasEncryptedKey := true

/-- Oracles: every balance dry-run answers `777`, submissions are
acknowledged with id `MSGID`, the confirmation poll throws. -/
def cexOracles : Oracles where
  user := some cexUser
  balanceReply := fun _ _ =>
    BalOutcome.reply (some { data := some (strL "777"), balanceTag := none,
                             tickerTag := none })
  submitId := strL "MSGID"
  poll := PollOutcome.throw

/-- Oracles: every balance dry-run answers `0`. -/
def zeroOracles : Oracles where
  user := some cexUser
  balanceReply := fun _ _ =>
    BalOutcome.reply (some { data := some (strL "0"), balanceTag := none,
                             tickerTag := none })
  submitId := strL "MSGID"
  poll := PollOutcome.throw

/-- Placeholder swap executor (the swap branch collaborator). -/
def cexSwapExec : SwapParsed → ExecResult := fun _ => ⟨[], []⟩

/-- Placeholder holder-listing collaborator. -/
def cexListExec : List Char → ExecResult := fun _ => ⟨[], []⟩

/-- The C4 counterexample message: it contains `"my balance"` and
`"send"`, but also `"wallet"` and `"address"`. -/
def cexMsg : List Char :=
  strL "send my balance to my wallet address aaaaaaaaaaaaaaaaaaaaaa"

/-- A configuration tracking a single token. -/
def oneTokenConfig : AoConfig :=
  { defaultConfig with
      trackedTokens := some [defaultConfig.nativeTokenProcessId] }

/-! ## Lemmas -/

theorem toNat_ofNat_lt {n : ℕ} (h : n < 55296) : (Char.ofNat n).toNat = n := by
  have hv : Nat.isValidChar n := Or.inl h
  unfold Char.ofNat
  rw [dif_pos hv]
  rfl

theorem char_eq_of_toNat {c d : Char} (h : c.toNat = d.toNat) : c = d := by
  apply Char.ext
  exact UInt32.ext h

theorem jsToLower_toNat (c : Char) :
    (jsToLower c).toNat =
      if 65 ≤ c.toNat ∧ c.toNat ≤ 90 then c.toNat + 32 else c.toNat := by
  unfold jsToLower
  split_ifs with h
  · exact toNat_ofNat_lt (by omega)
  · rfl

theorem takeWhile_all_self {p : Char → Bool} {l : List Char}
    (h : ∀ c ∈ l, p c = true) : l.takeWhile p = l := by
  induction l with
  | nil => rfl
  | cons c t ih =>
    rw [List.takeWhile_cons_of_pos (h c (by simp))]
    rw [ih (fun x hx => h x (by simp [hx]))]

theorem takeWhile_nil_of {p : Char → Bool} {l : List Char}
    (h : ∀ c ∈ l, p c = false) : l.takeWhile p = [] := by
  cases l with
  | nil => rfl
  | cons c t =>
    rw [List.takeWhile_cons_of_neg]
    simp [h c (by simp)]

theorem tokenChar_not_space {c : Char} (h : tokenChar c = true) :
    isSpaceChar c = false := by
  simp only [tokenChar, decide_eq_true_eq] at h
  simp only [isSpaceChar, decide_eq_false_iff_not]
  omega

theorem tryDesc_first {R : Type} {k : ℕ → Option R} {m fuel : ℕ} {r : R}
    (h : k (m + fuel) = some r) : tryDesc k m fuel = some r := by
  cases fuel with
  | zero => simpa using h
  | succ f =>
    unfold tryDesc
    have : m + (f + 1) = m + f + 1 := by omega
    rw [this] at h
    rw [h]

theorem tryDesc_eq_some {R : Type} {k : ℕ → Option R} {m fuel : ℕ} {r : R}
    (h : tryDesc k m fuel = some r) :
    ∃ i, m ≤ i ∧ i ≤ m + fuel ∧ k i = some r := by
  induction fuel with
  | zero => exact ⟨m, le_rfl, by omega, by simpa using h⟩
  | succ f ih =>
    unfold tryDesc at h
    rcases hc : k (m + f + 1) with _ | v
    · rw [hc] at h
      obtain ⟨i, h1, h2, h3⟩ := ih h
      exact ⟨i, h1, by omega, h3⟩
    · rw [hc] at h
      simp only [Option.some.injEq] at h
      exact ⟨m + f + 1, by omega, by omega, by rw [hc, h]⟩

theorem matchClass_full {R : Type} {p : Char → Bool} {m : ℕ} {l : List Char}
    {k : List Char → List Char → Option R} {r : R}
    (hall : ∀ c ∈ l, p c = true) (hm : m ≤ l.length)
    (hk : k l [] = some r) : matchClass p m l k = some r := by
  unfold matchClass
  rw [takeWhile_all_self hall]
  rw [if_neg (by omega)]
  apply tryDesc_first
  have he : m + (l.length - m) = l.length := by omega
  rw [he, List.take_length, List.drop_length]
  exact hk

theorem matchClass_eq_some {R : Type} {p : Char → Bool} {m : ℕ}
    {l : List Char} {k : List Char → List Char → Option R} {r : R}
    (h : matchClass p m l k = some r) :
    ∃ i, m ≤ i ∧ i ≤ (l.takeWhile p).length ∧
      k (l.take i) (l.drop i) = some r := by
  simp only [matchClass] at h
  split at h
  · exact absurd h (by simp)
  · obtain ⟨i, h1, h2, h3⟩ := tryDesc_eq_some h
    exact ⟨i, h1, by omega, h3⟩

theorem take_all_of_le_takeWhile {p : Char → Bool} {l : List Char} {i : ℕ}
    (h : i ≤ (l.takeWhile p).length) : ∀ c ∈ l.take i, p c = true := by
  intro c hc
  have he : l.take i = (l.takeWhile p).take i := by
    conv_lhs => rw [← List.takeWhile_append_dropWhile p l]
    rw [List.take_append_eq_append_take]
    rw [Nat.sub_eq_zero_of_le h]
    simp
  rw [he] at hc
  exact List.mem_takeWhile_imp (List.take_subset _ _ hc)

theorem litCI_eq_some {R : Type} {s l : List Char}
    {k : List Char → Option R} {r : R} (h : litCI s l k = some r) :
    ∃ rest, k rest = some r := by
  induction s generalizing l with
  | nil => exact ⟨l, h⟩
  | cons a s ih =>
    cases l with
    | nil => simp [litCI] at h
    | cons c t =>
      unfold litCI at h
      split at h
      · exact ih h
      · simp at h

theorem spaces1_eq_some {R : Type} {l : List Char}
    {k : List Char → Option R} {r : R} (h : spaces1 l k = some r) :
    ∃ rest, k rest = some r := by
  unfold spaces1 at h
  obtain ⟨i, _, _, h3⟩ := matchClass_eq_some h
  exact ⟨_, h3⟩

theorem spaces1_single {R : Type} {c : Char} {l : List Char}
    {k : List Char → Option R} (hc : isSpaceChar c = true)
    (hl : l.takeWhile isSpaceChar = []) : spaces1 (c :: l) k = k l := by
  unfold spaces1 matchClass
  rw [List.takeWhile_cons_of_pos hc, hl]
  simp [tryDesc]

theorem scanBdry_first {R : Type} {tryAt : List Char → Option R}
    {l : List Char} {r : R} (h : tryAt l = some r) {prev : Option Char}
    (hprev : prev.all (fun c => ¬ isWordChar c) = true) :
    scanBdry tryAt prev l = some r := by
  cases l with
  | nil =>
    unfold scanBdry
    rw [if_pos hprev]
    exact h
  | cons c t =>
    unfold scanBdry
    rw [if_pos hprev, h]

theorem scanBdry_eq_some {R : Type} {tryAt : List Char → Option R}
    {prev : Option Char} {l : List Char} {r : R}
    (h : scanBdry tryAt prev l = some r) :
    ∃ suffix, tryAt suffix = some r := by
  induction l generalizing prev with
  | nil =>
    unfold scanBdry at h
    split at h
    · exact ⟨[], h⟩
    · simp at h
  | cons c t ih =>
    unfold scanBdry at h
    by_cases hb : prev.all (fun c => ¬ isWordChar c) = true
    · rw [if_pos hb] at h
      rcases hx : tryAt (c :: t) with _ | v
      · rw [hx] at h
        exact ih h
      · rw [hx] at h
        simp only [Option.some.injEq] at h
        exact ⟨c :: t, by rw [hx, h]⟩
    · rw [if_neg hb] at h
      exact ih h

theorem orElse_cases {α : Type} {a b : Option α} {r : α}
    (h : (a <|> b) = some r) : a = some r ∨ (a = none ∧ b = some r) := by
  cases a with
  | none => simp_all
  | some v => simp_all

theorem roundHalfUp_of_dvd {p q : ℕ} (hq : 0 < q) (h : q ∣ p) :
    roundHalfUp p q = p / q := by
  obtain ⟨k, rfl⟩ := h
  unfold roundHalfUp
  have h1 : 2 * (q * k) + q = q + (2 * q) * k := by ring
  rw [h1, Nat.add_mul_div_left _ _ (by omega),
      Nat.div_eq_of_lt (by omega), Nat.mul_div_cancel_left _ hq]
  omega

theorem roundHalfUp_close {p q : ℕ} (hq : 0 < q) :
    |((roundHalfUp p q : ℕ) : ℚ) - (p : ℚ) / (q : ℚ)| ≤ 1 / 2 := by
  have hq2 : 0 < 2 * q := by omega
  have h1 : (2 * q) * roundHalfUp p q ≤ 2 * p + q := Nat.mul_div_le _ _
  have h2 : 2 * p + q < (2 * q) * roundHalfUp p q + 2 * q := by
    have hm := Nat.div_add_mod (2 * p + q) (2 * q)
    have hlt := Nat.mod_lt (2 * p + q) hq2
    unfold roundHalfUp
    omega
  have hQ : (0 : ℚ) < (q : ℚ) := by exact_mod_cast hq
  have c1 : ((2 * q) * roundHalfUp p q : ℚ) ≤ 2 * p + q := by
    exact_mod_cast h1
  have c2 : ((2 * p + q : ℕ) : ℚ) < ((2 * q) * roundHalfUp p q + 2 * q : ℕ) := by
    exact_mod_cast h2
  push_cast at c1 c2
  have key : ((p : ℚ) / q) * q = (p : ℚ) := div_mul_cancel₀ _ (ne_of_gt hQ)
  rw [abs_le]
  constructor
  · nlinarith [c2, key, hQ]
  · nlinarith [c1, key, hQ]

theorem canonDec_succ (m f : ℕ) :
    canonDec m (f + 1) =
      if m % 10 = 0 then canonDec (m / 10) f else ⟨m, f + 1⟩ := rfl

theorem canonDec_mul_pow (m k f : ℕ) :
    canonDec (m * 10 ^ k) (f + k) = canonDec m f := by
  induction k with
  | zero => rw [pow_zero, mul_one, Nat.add_zero]
  | succ j ih =>
    have h1 : f + (j + 1) = (f + j) + 1 := by omega
    rw [h1, canonDec_succ]
    have h2 : m * 10 ^ (j + 1) % 10 = 0 := by
      have : 10 ∣ m * 10 ^ (j + 1) :=
        Dvd.dvd.mul_left (dvd_pow_self 10 (by omega)) m
      omega
    rw [if_pos h2]
    have h3 : m * 10 ^ (j + 1) / 10 = m * 10 ^ j := by
      rw [pow_succ, ← mul_assoc]
      exact Nat.mul_div_cancel _ (by omega)
    rw [h3, ih]

theorem canonDec_self {m f : ℕ} (h : f = 0 ∨ ¬ (10 ∣ m)) :
    canonDec m f = ⟨m, f⟩ := by
  cases f with
  | zero => rfl
  | succ j =>
    rw [canonDec_succ, if_neg]
    rcases h with h | h
    · omega
    · omega

theorem canonDec_val (m f : ℕ) :
    (canonDec m f).val = (⟨m, f⟩ : Dec).val := by
  induction f generalizing m with
  | zero => rfl
  | succ j ih =>
    rw [canonDec_succ]
    split
    · next h =>
      rw [ih]
      unfold Dec.val
      simp only
      have h10 : (m : ℚ) = ((m / 10 : ℕ) : ℚ) * 10 := by
        have he : m / 10 * 10 = m := Nat.div_mul_cancel (by omega)
        exact_mod_cast he.symm
      rw [h10, pow_succ, mul_div_mul_right]
      exact OfNat.ofNat_ne_zero 10
    · rfl

theorem toBaseUnits_exact {x : Dec} {d : ℕ} (h : x.f ≤ d) :
    toBaseUnits x d = x.m * 10 ^ (d - x.f) := by
  unfold toBaseUnits
  have h1 : (10 : ℕ) ^ d = 10 ^ (d - x.f) * 10 ^ x.f := by
    rw [← pow_add]
    congr 1
    omega
  rw [h1, ← mul_assoc]
  exact Nat.mul_div_cancel _ (Nat.pos_pow_of_pos _ (by omega))

theorem isDigitChar_digitChar {n : ℕ} (h : n < 10) :
    isDigitChar (digitChar n) = true := by
  unfold digitChar
  simp only [isDigitChar, decide_eq_true_eq]
  rw [toNat_ofNat_lt (by omega)]
  omega

theorem toNat_digitChar {n : ℕ} (h : n < 10) :
    (digitChar n).toNat = 48 + n := by
  unfold digitChar
  exact toNat_ofNat_lt (by omega)

theorem natCharsAux_spec {fuel : ℕ} : ∀ {n : ℕ}, n < fuel →
    (∀ c ∈ natCharsAux fuel n, isDigitChar c = true) ∧
    natOfDigits (natCharsAux fuel n) = n ∧ natCharsAux fuel n ≠ [] := by
  induction fuel with
  | zero => intro n h; omega
  | succ f ih =>
    intro n hn
    unfold natCharsAux
    by_cases h10 : n < 10
    · rw [if_pos h10]
      refine ⟨?_, ?_, by simp⟩
      · intro c hc
        simp only [List.mem_singleton] at hc
        subst hc
        exact isDigitChar_digitChar h10
      · unfold natOfDigits
        simp [toNat_digitChar h10]
    · rw [if_neg h10]
      have hdiv : n / 10 < f := by
        have := Nat.div_lt_self (by omega : 0 < n) (by omega : 1 < 10)
        omega
      obtain ⟨ha, hv, hne⟩ := ih hdiv
      have hm10 : n % 10 < 10 := Nat.mod_lt _ (by omega)
      refine ⟨?_, ?_, by simp⟩
      · intro c hc
        rcases List.mem_append.mp hc with hc | hc
        · exact ha c hc
        · simp only [List.mem_singleton] at hc
          subst hc
          exact isDigitChar_digitChar hm10
      · unfold natOfDigits at hv ⊢
        rw [List.foldl_append]
        simp only [List.foldl_cons, List.foldl_nil, hv]
        rw [toNat_digitChar hm10]
        omega

theorem natChars_spec (n : ℕ) :
    (∀ c ∈ natChars n, isDigitChar c = true) ∧
    natOfDigits (natChars n) = n ∧ natChars n ≠ [] :=
  natCharsAux_spec (by omega)

theorem decOfDigits_natChars (n : ℕ) :
    decOfDigits (natChars n) = some ⟨n, 0⟩ := by
  obtain ⟨ha, hv, hne⟩ := natChars_spec n
  unfold decOfDigits
  rw [takeWhile_all_self ha]
  simp only [List.drop_length]
  rw [if_neg hne, hv]

theorem sliceLast_length {α : Type} (n : ℕ) (l : List α) :
    (sliceLast n l).length = min n l.length := by
  unfold sliceLast
  rw [List.length_drop]
  omega

theorem sliceLast_of_le {α : Type} {n : ℕ} {l : List α}
    (h : l.length ≤ n) : sliceLast n l = l := by
  unfold sliceLast
  rw [Nat.sub_eq_zero_of_le h, List.drop_zero]

theorem sliceLast_suffix {α : Type} (n : ℕ) (l : List α) :
    (sliceLast n l).IsSuffix l := List.drop_suffix _ _

theorem sliceLast_append {α : Type} (n : ℕ) (l m : List α) :
    sliceLast n (sliceLast n l ++ m) = sliceLast n (l ++ m) := by
  by_cases hl : l.length ≤ n
  · rw [sliceLast_of_le hl]
  · have hlen : (l.drop (l.length - n)).length = n := by
      rw [List.length_drop]
      omega
    unfold sliceLast
    rw [List.length_append, List.length_append, hlen]
    by_cases hm : n ≤ m.length
    · have e1 : n + m.length - n = (l.drop (l.length - n)).length + (m.length - n) := by
        rw [hlen]
        omega
      have e2 : l.length + m.length - n = l.length + (m.length - n) := by
        omega
      rw [e1, e2, List.drop_append, List.drop_append]
    · have e2 : m.length ≤ (l.drop (l.length - n)).length := by
        rw [hlen]
        omega
      have e1 : n + m.length - n = m.length := by omega
      rw [e1, List.drop_append_of_le_length e2]
      have e3 : l.length + m.length - n ≤ l.length := by omega
      rw [List.drop_append_of_le_length e3]
      have e4 : l.length - n + m.length = l.length + m.length - n := by
        omega
      rw [List.drop_drop, e4]

theorem foldl_appendTurn (w : List ConvTurn) (ts : List ConvTurn)
    (hw : w.length ≤ 20) :
    ts.foldl appendTurn w = sliceLast 20 (w ++ ts) := by
  induction ts generalizing w with
  | nil =>
    simp only [List.foldl_nil, List.append_nil]
    exact (sliceLast_of_le hw).symm
  | cons t ts ih =>
    rw [List.foldl_cons]
    have h1 : (appendTurn w t).length ≤ 20 := by
      unfold appendTurn
      rw [sliceLast_length]
      omega
    rw [ih _ h1]
    unfold appendTurn
    rw [sliceLast_append]
    simp

theorem formatAmountDec_pos_den (base d : ℕ) (hd : 0 < d) :
    formatAmountDec ⟨base, 0⟩ d =
      canonDec (roundHalfUp (roundHalfUp (base * 10 ^ 20) (10 ^ d)) (10 ^ 14))
        6 := by
  unfold formatAmountDec
  rw [if_pos hd]
  simp only [Nat.zero_add]

theorem abs_div_sub_eq {A v C : ℚ} (hC : 0 < C) :
    |A / C - v| = |A - v * C| / C := by
  have h1 : A / C - v = (A - v * C) / C := by
    field_simp
    ring
  rw [h1, abs_div, abs_of_pos hC]

/-- C3: converting a representable positive decimal `x` (at most `d`
fractional digits) to base units and formatting back yields `x` exactly
when `x` shows at most 6 fractional digits, and in every case a value
within the 6-fractional-digit display tolerance. -/
theorem claimC3_roundtrip (x : Dec) (d : ℕ) (hpos : 0 < x.m)
    (hcanon : x.f = 0 ∨ ¬ (10 ∣ x.m)) (hfd : x.f ≤ d) :
    (x.f ≤ 6 →
      formatAmountWithDecimals (natChars (toBaseUnits x d)) d = x.render) ∧
    |(formatAmountDec ⟨toBaseUnits x d, 0⟩ d).val - x.val| <
      1 / 10 ^ 6 := by
  have hbase : toBaseUnits x d = x.m * 10 ^ (d - x.f) := toBaseUnits_exact hfd
  have hne := (natChars_spec (toBaseUnits x d)).2.2
  constructor
  · intro hf6
    unfold formatAmountWithDecimals
    rw [if_neg hne, decOfDigits_natChars]
    show (formatAmountDec ⟨toBaseUnits x d, 0⟩ d).render = x.render
    suffices hsuf : formatAmountDec ⟨toBaseUnits x d, 0⟩ d = x by rw [hsuf]
    rcases Nat.eq_zero_or_pos d with hd | hd
    · subst hd
      have hf0 : x.f = 0 := by omega
      unfold formatAmountDec
      rw [if_neg (by omega)]
      rw [hbase, hf0]
      simp only [Nat.sub_zero, pow_zero, mul_one]
      rw [canonDec_self (Or.inl rfl)]
      cases x
      simp_all
    · rw [formatAmountDec_pos_den _ _ hd]
      have e1 : toBaseUnits x d * 10 ^ 20 = x.m * 10 ^ (20 - x.f) * 10 ^ d := by
        rw [hbase, mul_assoc, mul_assoc, ← pow_add, ← pow_add]
        congr 2
        omega
      have e2 : roundHalfUp (toBaseUnits x d * 10 ^ 20) (10 ^ d) =
          x.m * 10 ^ (20 - x.f) := by
        rw [e1, roundHalfUp_of_dvd (Nat.pos_pow_of_pos _ (by omega))
              (dvd_mul_left _ _)]
        exact Nat.mul_div_cancel _ (Nat.pos_pow_of_pos _ (by omega))
      have e3 : x.m * 10 ^ (20 - x.f) = x.m * 10 ^ (6 - x.f) * 10 ^ 14 := by
        rw [mul_assoc, ← pow_add]
        congr 2
        omega
      have e4 : roundHalfUp (x.m * 10 ^ (20 - x.f)) (10 ^ 14) =
          x.m * 10 ^ (6 - x.f) := by
        rw [e3, roundHalfUp_of_dvd (Nat.pos_pow_of_pos _ (by omega))
              (dvd_mul_left _ _)]
        exact Nat.mul_div_cancel _ (Nat.pos_pow_of_pos _ (by omega))
      rw [e2, e4]
      obtain ⟨k, hk⟩ : ∃ k, 6 - x.f = k := ⟨_, rfl⟩
      rw [hk]
      rw [show (6 : ℕ) = x.f + k by omega]
      rw [canonDec_mul_pow, canonDec_self hcanon]
  · rcases Nat.eq_zero_or_pos d with hd | hd
    · subst hd
      have hf0 : x.f = 0 := by omega
      unfold formatAmountDec
      rw [if_neg (by omega)]
      rw [hbase, hf0]
      simp only [Nat.sub_zero, pow_zero, mul_one]
      rw [canonDec_self (Or.inl rfl)]
      have hv : (⟨x.m, 0⟩ : Dec).val = x.val := by
        unfold Dec.val
        rw [hf0]
      rw [hv]
      simp only [sub_self, abs_zero]
      positivity
    · rw [formatAmountDec_pos_den _ _ hd]
      set B := toBaseUnits x d with hB
      set n20 := roundHalfUp (B * 10 ^ 20) (10 ^ d) with hn20
      set n6 := roundHalfUp n20 (10 ^ 14) with hn6
      rw [canonDec_val]
      have hQd : (0 : ℚ) < (10 : ℚ) ^ d := by positivity
      have hQf : (0 : ℚ) < (10 : ℚ) ^ x.f := by positivity
      have h20 : (0 : ℚ) < (10 : ℚ) ^ (20 : ℕ) := by positivity
      have h6 : (0 : ℚ) < (10 : ℚ) ^ (6 : ℕ) := by positivity
      have hxv : ((B : ℕ) : ℚ) / (10 : ℚ) ^ d = x.val := by
        rw [hbase]
        push_cast
        unfold Dec.val
        rw [div_eq_div_iff (ne_of_gt hQd) (ne_of_gt hQf)]
        have hee : (10 : ℚ) ^ (d - x.f) * (10 : ℚ) ^ x.f = (10 : ℚ) ^ d := by
          rw [← pow_add]
          congr 1
          omega
        linear_combination (x.m : ℚ) * hee
      have hA := roundHalfUp_close (p := B * 10 ^ 20) (q := 10 ^ d)
        (Nat.pos_pow_of_pos _ (by omega))
      have hA2 : |((n20 : ℕ) : ℚ) / (10 : ℚ) ^ (20 : ℕ) - x.val| ≤
          1 / (2 * 10 ^ (20 : ℕ)) := by
        have he : ((B * 10 ^ 20 : ℕ) : ℚ) / ((10 ^ d : ℕ) : ℚ) =
            x.val * (10 : ℚ) ^ (20 : ℕ) := by
          push_cast
          rw [← hxv]
          ring
        rw [he] at hA
        rw [abs_div_sub_eq h20]
        have hstep : |((n20 : ℕ) : ℚ) - x.val * (10 : ℚ) ^ (20 : ℕ)| /
            (10 : ℚ) ^ (20 : ℕ) ≤ (1 / 2) / (10 : ℚ) ^ (20 : ℕ) := by
          gcongr
        calc |((n20 : ℕ) : ℚ) - x.val * (10 : ℚ) ^ (20 : ℕ)| /
              (10 : ℚ) ^ (20 : ℕ) ≤ (1 / 2) / (10 : ℚ) ^ (20 : ℕ) := hstep
          _ = 1 / (2 * 10 ^ (20 : ℕ)) := by ring
      have hBq := roundHalfUp_close (p := n20) (q := 10 ^ 14)
        (Nat.pos_pow_of_pos _ (by omega))
      have hB2 : |((n6 : ℕ) : ℚ) / (10 : ℚ) ^ (6 : ℕ) -
          ((n20 : ℕ) : ℚ) / (10 : ℚ) ^ (20 : ℕ)| ≤ 1 / (2 * 10 ^ (6 : ℕ)) := by
        have he : ((n20 : ℕ) : ℚ) / ((10 ^ 14 : ℕ) : ℚ) =
            (((n20 : ℕ) : ℚ) / (10 : ℚ) ^ (20 : ℕ)) * (10 : ℚ) ^ (6 : ℕ) := by
          push_cast
          rw [div_mul_eq_mul_div,
              div_eq_div_iff (by positivity) (ne_of_gt h20)]
          have hee : (10 : ℚ) ^ (6 : ℕ) * (10 : ℚ) ^ (14 : ℕ) =
              (10 : ℚ) ^ (20 : ℕ) := by
            rw [← pow_add]
          linear_combination ((n20 : ℕ) : ℚ) * hee
        rw [he] at hBq
        rw [abs_div_sub_eq h6]
        have hstep : |((n6 : ℕ) : ℚ) -
            ((n20 : ℕ) : ℚ) / (10 : ℚ) ^ (20 : ℕ) * (10 : ℚ) ^ (6 : ℕ)| /
            (10 : ℚ) ^ (6 : ℕ) ≤ (1 / 2) / (10 : ℚ) ^ (6 : ℕ) := by
          gcongr
        calc |((n6 : ℕ) : ℚ) -
              ((n20 : ℕ) : ℚ) / (10 : ℚ) ^ (20 : ℕ) * (10 : ℚ) ^ (6 : ℕ)| /
              (10 : ℚ) ^ (6 : ℕ) ≤ (1 / 2) / (10 : ℚ) ^ (6 : ℕ) := hstep
          _ = 1 / (2 * 10 ^ (6 : ℕ)) := by ring
      have htri := abs_sub_le
        (((n6 : ℕ) : ℚ) / (10 : ℚ) ^ (6 : ℕ))
        (((n20 : ℕ) : ℚ) / (10 : ℚ) ^ (20 : ℕ)) x.val
      have hval : (⟨n6, 6⟩ : Dec).val = ((n6 : ℕ) : ℚ) / (10 : ℚ) ^ (6 : ℕ) := rfl
      rw [hval]
      calc |((n6 : ℕ) : ℚ) / (10 : ℚ) ^ (6 : ℕ) - x.val| ≤
            |((n6 : ℕ) : ℚ) / (10 : ℚ) ^ (6 : ℕ) -
              ((n20 : ℕ) : ℚ) / (10 : ℚ) ^ (20 : ℕ)| +
            |((n20 : ℕ) : ℚ) / (10 : ℚ) ^ (20 : ℕ) - x.val| := htri
        _ ≤ 1 / (2 * 10 ^ (6 : ℕ)) + 1 / (2 * 10 ^ (20 : ℕ)) := by
              exact add_le_add hB2 hA2
        _ < 1 / 10 ^ 6 := by norm_num

/-- C8: the per-user conversation window is trimmed from the front to at
most 20 turns by every append; the code handler stores exactly two
spec-level appends (user turn then assistant turn); 25 sequential
appends leave exactly the 20 most recent turns in order; and the agent
context is the most recent at-most-10 turns including the new user
turn. -/
theorem claimC8_conversationWindow :
    (∀ (w : List ConvTurn) (t : ConvTurn), (appendTurn w t).length ≤ 20) ∧
    (∀ (m : ConvMap) (k : ℕ) (u a : ConvTurn),
      handleConvMessage m k u a k =
        some (appendTurn (appendTurn (convGet m k) u) a)) ∧
    (∀ (w ts : List ConvTurn), w.length ≤ 20 → ts.length = 25 →
      (ts.foldl appendTurn w).length = 20 ∧
      ts.foldl appendTurn w = ts.drop 5) ∧
    (∀ (m : ConvMap) (k : ℕ) (u : ConvTurn),
      (contextForAgent m k u).length ≤ 10 ∧
      (contextForAgent m k u).IsSuffix (convGet m k ++ [u])) := by
  refine ⟨?_, ?_, ?_, ?_⟩
  · intro w t
    unfold appendTurn
    rw [sliceLast_length]
    omega
  · intro m k u a
    unfold handleConvMessage
    rw [if_pos rfl]
    unfold appendTurn
    rw [sliceLast_append]
    rw [List.append_assoc]
    rfl
  · intro w ts hw hts
    have hfold := foldl_appendTurn w ts hw
    constructor
    · rw [hfold, sliceLast_length, List.length_append, hts]
      omega
    · rw [hfold]
      unfold sliceLast
      rw [List.length_append, hts]
      have he : w.length + 25 - 20 = w.length + 5 := by omega
      rw [he, List.drop_append]
  · intro m k u
    constructor
    · unfold contextForAgent
      rw [sliceLast_length]
      omega
    · exact sliceLast_suffix _ _

/-- Witness for C8 at concrete inputs: 25 appends of concrete turns to
an empty window leave exactly turns 6–25. -/
theorem claimC8_witness :
    (((List.range 25).map (fun i => (⟨true, natChars i, i⟩ : ConvTurn))).foldl
        appendTurn []).length = 20 ∧
    ((List.range 25).map (fun i => (⟨true, natChars i, i⟩ : ConvTurn))).foldl
        appendTurn [] =
      ((List.range 25).map (fun i => (⟨true, natChars i, i⟩ : ConvTurn))).drop
        5 :=
  claimC8_conversationWindow.2.2.1 []
    ((List.range 25).map (fun i => (⟨true, natChars i, i⟩ : ConvTurn)))
    (by simp) (by simp)

/-- C10: handling a message from one user rewrites only that same key of
the process-wide conversation map, and the reset command deletes exactly
the entry of the invoking user. -/
theorem claimC10_frame :
    ∀ (m : ConvMap) (k k2 : ℕ) (u a : ConvTurn), k2 ≠ k →
      (handleConvMessage m k u a k2 = m k2 ∧
       handleStopConversation m k k2 = m k2) ∧
      handleStopConversation m k k = none ∧
      handleConvMessage m k u a k =
        some (sliceLast 20 (convGet m k ++ [u, a])) := by
  intro m k k2 u a hne
  refine ⟨⟨?_, ?_⟩, ?_, ?_⟩
  · unfold handleConvMessage
    rw [if_neg hne]
  · unfold handleStopConversation
    rw [if_neg hne]
  · unfold handleStopConversation
    rw [if_pos rfl]
  · unfold handleConvMessage
    rw [if_pos rfl]

/-- Witness for C10 at concrete inputs. -/
theorem claimC10_witness :
    (handleConvMessage (fun _ => none) 7 ⟨true, [], 0⟩ ⟨false, [], 1⟩ 3 =
       (fun _ => (none : Option (List ConvTurn))) 3 ∧
     handleStopConversation (fun _ => none) 7 3 =
       (fun _ => (none : Option (List ConvTurn))) 3) ∧
    handleStopConversation (fun _ => (none : Option (List ConvTurn))) 7 7 =
      none ∧
    handleConvMessage (fun _ => none) 7 ⟨true, [], 0⟩ ⟨false, [], 1⟩ 7 =
      some (sliceLast 20
        (convGet (fun _ => none) 7 ++ [⟨true, [], 0⟩, ⟨false, [], 1⟩])) :=
  claimC10_frame (fun _ => none) 7 3 ⟨true, [], 0⟩ ⟨false, [], 1⟩ (by decide)

/-- C7: a transfer request whose token alias is absent from the registry
returns the token-not-supported text and issues no network call, on both
the direct fast path and the agent tool path. -/
theorem claimC7_unsupportedToken :
    (∀ (cfg : AoConfig) (o : Oracles) (p : TransferParsed) (u : UserRec),
      o.user = some u → u.walletAddress ≠ [] → u.hasEncryptedKey = true →
      p.tokenSymbol ≠ [] → lookupToken cfg (upperL p.tokenSymbol) = none →
      directTransferExec cfg o p = ⟨strL "❌ Token not supported.", []⟩) ∧
    (∀ (cfg : AoConfig) (o : Oracles) (params : TransferAssetParams)
       (u : UserRec) (q : ℚ),
      params.recipientAddress ≠ [] → params.amount ≠ [] →
      jsParseFloat params.amount = some q → 0 < q →
      o.user = some u → u.walletAddress ≠ [] → u.hasEncryptedKey = true →
      truthyStr params.tokenSymbol = true →
      lookupToken cfg (upperL (params.tokenSymbol.getD [])) = none →
      toolTransferExec cfg o params = ⟨strL "Token not supported.", []⟩) := by
  constructor
  · intro cfg o p u huser hw hk hsym hlook
    unfold directTransferExec
    rw [huser]
    simp only [hw, hk]
    rw [if_neg (by simp)]
    rw [if_pos hsym, hlook]
  · intro cfg o params u q hrec hamt hparse hq huser hw hk hsym hlook
    unfold toolTransferExec
    rw [if_neg (by simp [hrec, hamt]), hparse]
    simp only
    rw [if_neg (by exact not_le.mpr hq)]
    rw [huser]
    simp only [hw, hk]
    rw [if_neg (by simp)]
    rw [if_pos hsym, hlook]

/-- Witness for C7 at a concrete unsupported alias. -/
theorem claimC7_witness :
    directTransferExec defaultConfig cexOracles
      { amountRaw := strL "1", recipient := strL "9f8e7d6c5b4a3f2e1d0c9b8a",
        isAll := false, tokenSymbol := strL "doge" } =
      ⟨strL "❌ Token not supported.", []⟩ ∧
    toolTransferExec defaultConfig cexOracles
      { recipientAddress := strL "9f8e7d6c5b4a3f2e1d0c9b8a",
        amount := strL "1", tokenProcessId := none,
        tokenSymbol := some (strL "doge") } =
      ⟨strL "Token not supported.", []⟩ :=
  ⟨claimC7_unsupportedToken.1 defaultConfig cexOracles
      { amountRaw := strL "1", recipient := strL "9f8e7d6c5b4a3f2e1d0c9b8a",
        isAll := false, tokenSymbol := strL "doge" } cexUser
      (by rfl) (by decide) (by rfl) (by decide) (by rfl),
   claimC7_unsupportedToken.2 defaultConfig cexOracles
      { recipientAddress := strL "9f8e7d6c5b4a3f2e1d0c9b8a",
        amount := strL "1", tokenProcessId := none,
        tokenSymbol := some (strL "doge") } cexUser 1
      (by decide) (by decide) (by rfl) (by norm_num)
      (by rfl) (by decide) (by rfl) (by rfl) (by rfl)⟩

theorem char_toNat_cases_allmax {c1 : Char}
    (h : jsToLower c1 = 'a' ∨ jsToLower c1 = 'm') :
    c1.toNat = 97 ∨ c1.toNat = 65 ∨ c1.toNat = 109 ∨ c1.toNat = 77 := by
  have h97 : ('a' : Char).toNat = 97 := by decide
  have h109 : ('m' : Char).toNat = 109 := by decide
  rcases h with h | h
  · have ht := congrArg Char.toNat h
    rw [jsToLower_toNat, h97] at ht
    split_ifs at ht with hc
    · omega
    · omega
  · have ht := congrArg Char.toNat h
    rw [jsToLower_toNat, h109] at ht
    split_ifs at ht with hc
    · omega
    · omega

theorem jsParseFloat_letter {c1 : Char} (l : List Char)
    (h1 : c1.toNat = 97 ∨ c1.toNat = 65 ∨ c1.toNat = 109 ∨ c1.toNat = 77) :
    jsParseFloat (c1 :: l) = none := by
  have hns : isSpaceChar c1 = false := by
    simp only [isSpaceChar, decide_eq_false_iff_not]
    omega
  have hnd : isDigitChar c1 = false := by
    simp only [isDigitChar, decide_eq_false_iff_not]
    omega
  have hdot : ¬ (c1 = '.') := by
    intro heq
    have h46 := congrArg Char.toNat heq
    have hd : ('.' : Char).toNat = 46 := by decide
    omega
  unfold jsParseFloat
  rw [List.dropWhile_cons_of_neg (by simp [hns])]
  simp only
  rw [if_neg (by omega), if_neg (by omega)]
  rw [List.takeWhile_cons_of_neg (by simp [hnd])]
  simp only [List.length_nil, List.drop_zero]
  rw [if_neg hdot]
  simp

/-- C1: the all/max balance-substitution contract.  The direct fast path
honours it: with `isAll` the executor issues the balance query first,
returns the insufficient-balance text with no transfer when the fetched
balance is literally `"0"`, and otherwise submits a Quantity equal to
the fetched raw balance string with no conversion.  The agent tool path
however rejects the literal words `all`/`max` (in any case, as
`parseFloat` yields `NaN`) with the positive-number error before its
balance-substitution branch, issuing no network call — contradicting
the tool description, which advertises all/max support. -/
theorem claimC1_allMax :
    (∀ (cfg : AoConfig) (o : Oracles) (params : TransferAssetParams),
      params.recipientAddress ≠ [] →
      (lowerL params.amount = strL "all" ∨
       lowerL params.amount = strL "max") →
      toolTransferExec cfg o params =
        ⟨strL "Error: Amount must be a positive number", []⟩) ∧
    (∀ (cfg : AoConfig) (o : Oracles) (p : TransferParsed) (u : UserRec)
       (pid : List Char) (msg : Option BalReply),
      o.user = some u → u.walletAddress ≠ [] → u.hasEncryptedKey = true →
      (if p.tokenSymbol ≠ [] then lookupToken cfg (upperL p.tokenSymbol)
       else some cfg.nativeTokenProcessId) = some pid → pid ≠ [] →
      p.isAll = true →
      o.balanceReply pid u.walletAddress = BalOutcome.reply msg →
      (extractRaw msg = strL "0" →
        directTransferExec cfg o p =
          ⟨strL "❌ Insufficient balance.",
           [AoCall.balanceQuery pid u.walletAddress]⟩) ∧
      (extractRaw msg ≠ strL "0" →
        (directTransferExec cfg o p).calls =
          [AoCall.balanceQuery pid u.walletAddress,
           AoCall.transferMsg pid p.recipient (extractRaw msg),
           AoCall.resultFetch o.submitId pid])) := by
  constructor
  · intro cfg o params hrec hword
    have hlen : params.amount.length = 3 := by
      rcases hword with h | h <;>
        (have hc := congrArg List.length h
         simpa [lowerL] using hc)
    obtain ⟨c1, c2, c3, hdec⟩ := List.length_eq_three.mp hlen
    have hword2 : jsToLower c1 = 'a' ∨ jsToLower c1 = 'm' := by
      rcases hword with h | h
      · left
        rw [hdec] at h
        have hall : strL "all" = 'a' :: 'l' :: 'l' :: [] := rfl
        rw [hall] at h
        simp only [lowerL, List.map_cons, List.map_nil,
          List.cons.injEq] at h
        exact h.1
      · right
        rw [hdec] at h
        have hmax : strL "max" = 'm' :: 'a' :: 'x' :: [] := rfl
        rw [hmax] at h
        simp only [lowerL, List.map_cons, List.map_nil,
          List.cons.injEq] at h
        exact h.1
    have hparse : jsParseFloat params.amount = none := by
      rw [hdec]
      exact jsParseFloat_letter _ (char_toNat_cases_allmax hword2)
    unfold toolTransferExec
    rw [if_neg (by simp [hrec, hdec]), hparse]
  · intro cfg o p u pid msg huser hw hk hres hpid hisAll hrep
    unfold directTransferExec
    rw [huser]
    simp only [hw, hk]
    rw [if_neg (by simp)]
    rw [hres]
    dsimp only
    rw [if_neg hpid]
    simp only [hisAll, if_true]
    rw [hrep]
    dsimp only
    constructor
    · intro hbal
      rw [if_pos hbal]
    · intro hbal
      rw [if_neg hbal]
      simp

/-- Witness for C1 at concrete inputs: the tool rejects the literal
`"ALL"`, and the fast path substitutes the fetched balance. -/
theorem claimC1_witness :
    toolTransferExec defaultConfig cexOracles
      { recipientAddress := strL "9f8e7d6c5b4a3f2e1d0c9b8a",
        amount := strL "ALL", tokenProcessId := none,
        tokenSymbol := some (strL "AO") } =
      ⟨strL "Error: Amount must be a positive number", []⟩ ∧
    (directTransferExec defaultConfig cexOracles
        { amountRaw := strL "all", recipient := strL "9f8e7d6c5b4a3f2e1d0c9b8a",
          isAll := true, tokenSymbol := strL "ao" }).calls =
      [AoCall.balanceQuery defaultConfig.nativeTokenProcessId
         cexUser.walletAddress,
       AoCall.transferMsg defaultConfig.nativeTokenProcessId
         (strL "9f8e7d6c5b4a3f2e1d0c9b8a") (strL "777"),
       AoCall.resultFetch (strL "MSGID") defaultConfig.nativeTokenProcessId] :=
  ⟨claimC1_allMax.1 defaultConfig cexOracles
      { recipientAddress := strL "9f8e7d6c5b4a3f2e1d0c9b8a",
        amount := strL "ALL", tokenProcessId := none,
        tokenSymbol := some (strL "AO") } (by decide) (by left; decide),
   (claimC1_allMax.2 defaultConfig cexOracles
      { amountRaw := strL "all", recipient := strL "9f8e7d6c5b4a3f2e1d0c9b8a",
        isAll := true, tokenSymbol := strL "ao" } cexUser
      defaultConfig.nativeTokenProcessId
      (some { data := some (strL "777"), balanceTag := none,
              tickerTag := none })
      (by rfl) (by decide) (by rfl) (by decide) (by decide) (by rfl)
      (by rfl)).2 (by decide)⟩

/-- C2 counterexample: the direct fast path submits the whole-number
amount `"5"` for AO (12 decimals) unchanged — the claimed conversion
`5 · 10^12 = 5000000000000` is not applied. -/
theorem claimC2_counterexample :
    (directTransferExec defaultConfig cexOracles
        { amountRaw := strL "5", recipient := strL "9f8e7d6c5b4a3f2e1d0c9b8a",
          isAll := false, tokenSymbol := strL "ao" }).calls =
      [AoCall.transferMsg defaultConfig.nativeTokenProcessId
         (strL "9f8e7d6c5b4a3f2e1d0c9b8a") (strL "5"),
       AoCall.resultFetch (strL "MSGID")
         defaultConfig.nativeTokenProcessId] ∧
    getDecimalsByAliasOrId defaultConfig defaultConfig.nativeTokenProcessId =
      12 ∧
    natChars (toBaseUnits ⟨5, 0⟩ 12) = strL "5000000000000" ∧
    strL "5" ≠ strL "5000000000000" := by
  refine ⟨by decide, by decide, by decide, by decide⟩

/-- C2 as amended: the agent transfer tool always applies the
display-to-base conversion with the resolved decimals, while the direct
fast path applies it only when the resolved decimals are positive and
amountDisplay contains a decimal point — otherwise it submits the
amountDisplay string unchanged. -/
theorem claimC2_amended :
    (∀ (cfg : AoConfig) (o : Oracles) (params : TransferAssetParams)
       (u : UserRec) (q : ℚ) (pid : List Char) (x : Dec),
      params.recipientAddress ≠ [] → params.amount ≠ [] →
      jsParseFloat params.amount = some q → 0 < q →
      o.user = some u → u.walletAddress ≠ [] → u.hasEncryptedKey = true →
      (if truthyStr params.tokenSymbol then
         lookupToken cfg (upperL (params.tokenSymbol.getD []))
       else if truthyStr params.tokenProcessId then params.tokenProcessId
       else some cfg.nativeTokenProcessId) = some pid → pid ≠ [] →
      ¬ (lowerL (trimL params.amount) = strL "all" ∨
         lowerL (trimL params.amount) = strL "max") →
      decOfDigits (trimL params.amount) = some x →
      (toolTransferExec cfg o params).calls =
        [AoCall.transferMsg pid params.recipientAddress
           (natChars (toBaseUnits x (getDecimalsByAliasOrId cfg pid))),
         AoCall.resultFetch o.submitId pid]) ∧
    (∀ (cfg : AoConfig) (o : Oracles) (p : TransferParsed) (u : UserRec)
       (pid : List Char),
      o.user = some u → u.walletAddress ≠ [] → u.hasEncryptedKey = true →
      (if p.tokenSymbol ≠ [] then lookupToken cfg (upperL p.tokenSymbol)
       else some cfg.nativeTokenProcessId) = some pid → pid ≠ [] →
      p.isAll = false →
      ((∀ x : Dec,
         0 < getDecimalsByAliasOrId cfg pid →
         p.amountRaw.any (fun c => c = '.') = true →
         decOfDigits p.amountRaw = some x →
         (directTransferExec cfg o p).calls =
           [AoCall.transferMsg pid p.recipient
              (natChars (toBaseUnits x (getDecimalsByAliasOrId cfg pid))),
            AoCall.resultFetch o.submitId pid]) ∧
       (¬ (0 < getDecimalsByAliasOrId cfg pid ∧
           p.amountRaw.any (fun c => c = '.') = true) →
         (directTransferExec cfg o p).calls =
           [AoCall.transferMsg pid p.recipient p.amountRaw,
            AoCall.resultFetch o.submitId pid]))) := by
  constructor
  · intro cfg o params u q pid x hrec hamt hparse hq huser hw hk hres hpid
      hnotall hdig
    unfold toolTransferExec
    rw [if_neg (by simp [hrec, hamt]), hparse]
    dsimp only
    rw [if_neg (by exact not_le.mpr hq)]
    rw [huser]
    simp only [hw, hk]
    rw [if_neg (by simp)]
    rw [hres]
    try dsimp only
    rw [if_neg hpid]
    rw [if_neg hnotall]
    unfold timesPowRound0Str
    rw [hdig]
    cases hpoll : o.poll with
    | throw => simp
    | ok e out =>
      cases e with
      | none => simp
      | some msg => simp
  · intro cfg o p u pid huser hw hk hres hpid hnotAll
    unfold directTransferExec
    rw [huser]
    simp only [hw, hk]
    rw [if_neg (by simp)]
    rw [hres]
    try dsimp only
    rw [if_neg hpid]
    simp only [hnotAll, Bool.false_eq_true, if_false]
    constructor
    · intro x hdec hdot hdig
      rw [if_pos ⟨hdec, hdot⟩]
      unfold timesPowRound0Str
      rw [hdig]
      simp
    · intro hcond
      rw [if_neg hcond]
      simp

/-- Witness for the amended C2 at concrete inputs: the tool converts
the whole number `"5"` to `5 · 10^12` base units; the fast path
converts `"0.1"` (decimal point present) and passes `"7"` through. -/
theorem claimC2_witness :
    (toolTransferExec defaultConfig cexOracles
        { recipientAddress := strL "9f8e7d6c5b4a3f2e1d0c9b8a",
          amount := strL "5", tokenProcessId := none,
          tokenSymbol := some (strL "AO") }).calls =
      [AoCall.transferMsg defaultConfig.nativeTokenProcessId
         (strL "9f8e7d6c5b4a3f2e1d0c9b8a")
         (natChars (toBaseUnits ⟨5, 0⟩
           (getDecimalsByAliasOrId defaultConfig
             defaultConfig.nativeTokenProcessId))),
       AoCall.resultFetch (strL "MSGID")
         defaultConfig.nativeTokenProcessId] ∧
    (directTransferExec defaultConfig cexOracles
        { amountRaw := strL "0.1", recipient := strL "9f8e7d6c5b4a3f2e1d0c9b8a",
          isAll := false, tokenSymbol := strL "ao" }).calls =
      [AoCall.transferMsg defaultConfig.nativeTokenProcessId
         (strL "9f8e7d6c5b4a3f2e1d0c9b8a")
         (natChars (toBaseUnits ⟨1, 1⟩
           (getDecimalsByAliasOrId defaultConfig
             defaultConfig.nativeTokenProcessId))),
       AoCall.resultFetch (strL "MSGID")
         defaultConfig.nativeTokenProcessId] :=
  ⟨claimC2_amended.1 defaultConfig cexOracles
      { recipientAddress := strL "9f8e7d6c5b4a3f2e1d0c9b8a",
        amount := strL "5", tokenProcessId := none,
        tokenSymbol := some (strL "AO") } cexUser 5
      defaultConfig.nativeTokenProcessId ⟨5, 0⟩
      (by decide) (by decide) (by rfl) (by norm_num) (by rfl) (by decide)
      (by rfl) (by rfl) (by decide) (by decide) (by rfl),
   ((claimC2_amended.2 defaultConfig cexOracles
      { amountRaw := strL "0.1", recipient := strL "9f8e7d6c5b4a3f2e1d0c9b8a",
        isAll := false, tokenSymbol := strL "ao" } cexUser
      defaultConfig.nativeTokenProcessId
      (by rfl) (by decide) (by rfl) (by rfl) (by decide) (by rfl)).1 ⟨1, 1⟩
      (by decide) (by decide) (by rfl))⟩

theorem fetchBalanceEntry_pid {o : Oracles} {w pid : List Char}
    {e : BalEntry} (hf : fetchBalanceEntry o w pid = some e) :
    e.processId = pid := by
  unfold fetchBalanceEntry at hf
  cases hrep : o.balanceReply pid w with
  | throw => rw [hrep] at hf; simp at hf
  | reply msg =>
    rw [hrep] at hf
    simp only [Option.some.injEq] at hf
    rw [← hf]

theorem filterMap_pid_sublist (o : Oracles) (w : List Char)
    (tracked : List (List Char)) :
    ((tracked.filterMap (fetchBalanceEntry o w)).map
      BalEntry.processId).Sublist tracked := by
  induction tracked with
  | nil => simp
  | cons pid t ih =>
    rw [List.filterMap_cons]
    cases hf : fetchBalanceEntry o w pid with
    | none => exact ih.cons _
    | some e =>
      simp only [List.map_cons, fetchBalanceEntry_pid hf]
      exact ih.cons₂ pid

/-- C9: the aggregate-balance summary excludes every entry whose raw
balance compares equal to zero under arbitrary-precision comparison,
keeps the remaining entries in tracked-token iteration order, and
returns exactly the literal `"No balances found."` when nothing
remains. -/
theorem claimC9_aggregate :
    (∀ b : BalEntry, bigParseQ b.amount = some 0 → keepNonZero b = false) ∧
    (∀ (cfg : AoConfig) (o : Oracles) (u : UserRec),
      o.user = some u → u.walletAddress ≠ [] →
      (((trackedList cfg).filterMap
          (fetchBalanceEntry o u.walletAddress)).filter
          keepNonZero).Sublist
        ((trackedList cfg).filterMap (fetchBalanceEntry o u.walletAddress)) ∧
      ((((trackedList cfg).filterMap
          (fetchBalanceEntry o u.walletAddress)).filter keepNonZero).map
          BalEntry.processId).Sublist (trackedList cfg) ∧
      (summarizeUserBalances cfg o).response =
        (if ((trackedList cfg).filterMap
              (fetchBalanceEntry o u.walletAddress)).filter keepNonZero =
            [] then
          strL "No balances found."
        else
          strL "Your balances
" ++
            List.intercalate (strL "
")
              ((((trackedList cfg).filterMap
                  (fetchBalanceEntry o u.walletAddress)).filter
                  keepNonZero).map (summaryLine cfg)))) := by
  constructor
  · intro b hzero
    unfold keepNonZero
    by_cases hemp : b.amount = []
    · rw [if_pos hemp]
      simp
    · rw [if_neg hemp, hzero]
      simp
  · intro cfg o u huser hw
    refine ⟨List.filter_sublist _, ?_, ?_⟩
    · exact ((List.filter_sublist _).map _).trans
        (filterMap_pid_sublist o u.walletAddress (trackedList cfg))
    · unfold summarizeUserBalances
      rw [huser]
      dsimp only
      rw [if_neg hw]
      by_cases hemp : ((trackedList cfg).filterMap
          (fetchBalanceEntry o u.walletAddress)).filter keepNonZero = []
      · rw [if_pos hemp]
        rw [if_pos hemp]
      · rw [if_neg hemp]
        rw [if_neg hemp]

/-- Witness for C9 at concrete inputs: a user whose every tracked token
answers `0` receives exactly the literal response. -/
theorem claimC9_witness :
    keepNonZero
      (⟨none, defaultConfig.nativeTokenProcessId, strL "0"⟩ : BalEntry) =
      false ∧
    (summarizeUserBalances oneTokenConfig zeroOracles).response =
      strL "No balances found." := by
  have hv : (⟨0, 0⟩ : Dec).val = 0 := by
    unfold Dec.val
    norm_num
  have hzero : bigParseQ (strL "0") = some 0 := by
    have hrfl : bigParseQ (strL "0") = some ((⟨0, 0⟩ : Dec).val) := rfl
    rw [hrfl, hv]
  have hkeep := claimC9_aggregate.1
    (⟨none, defaultConfig.nativeTokenProcessId, strL "0"⟩ : BalEntry) hzero
  refine ⟨hkeep, ?_⟩
  have hresp := (claimC9_aggregate.2 oneTokenConfig zeroOracles cexUser
    rfl (by decide)).2.2
  rw [hresp]
  have htr : trackedList oneTokenConfig =
      [defaultConfig.nativeTokenProcessId] := by decide
  have hf : fetchBalanceEntry zeroOracles cexUser.walletAddress
      defaultConfig.nativeTokenProcessId =
      some ⟨none, defaultConfig.nativeTokenProcessId, strL "0"⟩ := rfl
  have hfil : ((trackedList oneTokenConfig).filterMap
      (fetchBalanceEntry zeroOracles cexUser.walletAddress)).filter
      keepNonZero = [] := by
    rw [htr, List.filterMap_cons, hf]
    simp [List.filter_cons, hkeep]
  rw [if_pos hfil]

theorem getFormatted_no_transfer (cfg : AoConfig) (o : Oracles)
    (sym : List Char) : ∀ pid r q,
    AoCall.transferMsg pid r q ∉ (getFormattedUserBalanceForToken cfg o sym).calls := by
  intro pid r q
  unfold getFormattedUserBalanceForToken
  cases o.user with
  | none => simp
  | some u =>
    dsimp only
    by_cases hw : u.walletAddress = []
    · rw [if_pos hw]
      simp
    · rw [if_neg hw]
      try dsimp only
      cases o.balanceReply ((resolveTokenIdByAlias cfg sym).getD sym)
          u.walletAddress with
      | throw => simp
      | reply msg => simp

theorem summarize_no_transfer (cfg : AoConfig) (o : Oracles) :
    ∀ pid r q,
    AoCall.transferMsg pid r q ∉ (summarizeUserBalances cfg o).calls := by
  intro pid r q
  unfold summarizeUserBalances
  cases o.user with
  | none => simp
  | some u =>
    dsimp only
    by_cases hw : u.walletAddress = []
    · rw [if_pos hw]
      simp
    · rw [if_neg hw]
      try dsimp only
      split
      · intro hmem
        simp only [List.mem_map] at hmem
        obtain ⟨p2, _, habs⟩ := hmem
        exact AoCall.noConfusion habs
      · intro hmem
        simp only [List.mem_map] at hmem
        obtain ⟨p2, _, habs⟩ := hmem
        exact AoCall.noConfusion habs

/-- C4 counterexample: a message that contains both `"my balance"` and
`"send"` but also `"wallet"` and `"address"` is answered by the
address-query matcher, not the aggregate-balance path. -/
theorem claimC4_counterexample :
    isSubL (strL "my balance") (normLowerL cexMsg) = true ∧
    asksForTransfer (normLowerL cexMsg) = true ∧
    hasWalletO cexOracles = true ∧
    (processMessageFast defaultConfig cexOracles cexSwapExec cexListExec
        cexMsg).1 = RouteTag.address ∧
    (processMessageFast defaultConfig cexOracles cexSwapExec cexListExec
        cexMsg).1 ≠ RouteTag.aggregateBalance := by
  refine ⟨by decide, by decide, by decide, by decide, by decide⟩

/-- C4 as amended: matchers run in the fixed order address-query,
specific-token-balance, aggregate-balance, list-balances, transfer,
swap, first match winning; a message containing `"my balance"` is never
routed to the transfer or swap branch and triggers no transfer
submission, and it reaches the aggregate-balance path whenever neither
the address matcher (with an existing wallet) nor the
specific-token-balance matcher fires first. -/
theorem claimC4_amended :
    ∀ (cfg : AoConfig) (o : Oracles) (sE : SwapParsed → ExecResult)
      (lE : List Char → ExecResult) (msg : List Char),
      isSubL (strL "my balance") (normLowerL msg) = true →
      ((processMessageFast cfg o sE lE msg).1 ≠ RouteTag.transfer ∧
       (processMessageFast cfg o sE lE msg).1 ≠ RouteTag.swap ∧
       (processMessageFast cfg o sE lE msg).1 ≠ RouteTag.listBalances ∧
       (processMessageFast cfg o sE lE msg).1 ≠ RouteTag.agent) ∧
      (∀ pid r q, AoCall.transferMsg pid r q ∉
        (processMessageFast cfg o sE lE msg).2.calls) ∧
      (¬ (asksForAddress (normLowerL msg) = true ∧ hasWalletO o = true) →
        parseSpecificBalanceRequest (normQuotesL msg) = none →
        (processMessageFast cfg o sE lE msg).1 =
          RouteTag.aggregateBalance) := by
  intro cfg o sE lE msg hsub
  have hagg : asksForMyBalance (normLowerL msg) = true := by
    unfold asksForMyBalance
    rw [hsub]
    simp
  unfold processMessageFast
  dsimp only
  by_cases haddr : (asksForAddress (normLowerL msg) && hasWalletO o) = true
  · rw [if_pos haddr]
    refine ⟨⟨by simp, by simp, by simp, by simp⟩, by simp, ?_⟩
    intro hn _
    rw [Bool.and_eq_true] at haddr
    exact absurd ⟨haddr.1, haddr.2⟩ hn
  · rw [if_neg haddr]
    cases hspec : parseSpecificBalanceRequest (normQuotesL msg) with
    | some sym =>
      dsimp only
      refine ⟨⟨by simp, by simp, by simp, by simp⟩, ?_, ?_⟩
      · intro pid r q
        exact getFormatted_no_transfer cfg o sym pid r q
      · intro _ hnone
        exact absurd hnone (by simp)
    | none =>
      dsimp only
      rw [hagg]
      rw [if_pos rfl]
      refine ⟨⟨by simp, by simp, by simp, by simp⟩, ?_, ?_⟩
      · intro pid r q
        exact summarize_no_transfer cfg o pid r q
      · intro _ _
        rfl

/-- Witness for the amended C4 at a concrete input: a plain aggregate
request containing both `"my balance"` and `"send"` routes to the
aggregate-balance path and issues no transfer. -/
theorem claimC4_witness :
    ((processMessageFast defaultConfig cexOracles cexSwapExec cexListExec
        (strL "send me my balance please")).1 ≠ RouteTag.transfer ∧
     (processMessageFast defaultConfig cexOracles cexSwapExec cexListExec
        (strL "send me my balance please")).1 ≠ RouteTag.swap ∧
     (processMessageFast defaultConfig cexOracles cexSwapExec cexListExec
        (strL "send me my balance please")).1 ≠ RouteTag.listBalances ∧
     (processMessageFast defaultConfig cexOracles cexSwapExec cexListExec
        (strL "send me my balance please")).1 ≠ RouteTag.agent) ∧
    (∀ pid r q, AoCall.transferMsg pid r q ∉
      (processMessageFast defaultConfig cexOracles cexSwapExec cexListExec
        (strL "send me my balance please")).2.calls) ∧
    (¬ (asksForAddress (normLowerL (strL "send me my balance please")) =
          true ∧ hasWalletO cexOracles = true) →
      parseSpecificBalanceRequest
        (normQuotesL (strL "send me my balance please")) = none →
      (processMessageFast defaultConfig cexOracles cexSwapExec cexListExec
        (strL "send me my balance please")).1 =
        RouteTag.aggregateBalance) :=
  claimC4_amended defaultConfig cexOracles cexSwapExec cexListExec
    (strL "send me my balance please") (by decide)

theorem takeWhile_length_le (p : Char → Bool) (l : List Char) :
    (l.takeWhile p).length ≤ l.length := by
  conv_rhs => rw [← List.takeWhile_append_dropWhile p l]
  rw [List.length_append]
  omega

theorem kFromSwap_amount {amt l : List Char}
    {r : List Char × List Char × List Char}
    (h : kFromSwap amt l = some r) : r.1 = amt := by
  unfold kFromSwap at h
  obtain ⟨l2, h⟩ := spaces1_eq_some h
  obtain ⟨i, _, _, h⟩ := matchClass_eq_some h
  obtain ⟨l4, h⟩ := spaces1_eq_some h
  obtain ⟨l5, h⟩ := litCI_eq_some h
  obtain ⟨l6, h⟩ := spaces1_eq_some h
  obtain ⟨j, _, _, h⟩ := matchClass_eq_some h
  simp only [Option.some.injEq] at h
  rw [← h]

theorem matchSwapAt_amount {l : List Char}
    {r : List Char × List Char × List Char}
    (h : matchSwapAt l = some r) :
    r.1 ≠ [] ∧ ∀ c ∈ r.1, isDigitChar c = true ∨ c = '.' := by
  unfold matchSwapAt at h
  obtain ⟨l1, h⟩ := litCI_eq_some h
  obtain ⟨l2, h⟩ := spaces1_eq_some h
  obtain ⟨i, hi1, hi2, h⟩ := matchClass_eq_some h
  have hd1 : ∀ c ∈ l2.take i, isDigitChar c = true :=
    take_all_of_le_takeWhile hi2
  have hlic : (l2.takeWhile isDigitChar).length ≤ l2.length :=
    takeWhile_length_le _ _
  have hne1 : l2.take i ≠ [] := by
    intro hnil
    have hlen := congrArg List.length hnil
    rw [List.length_take] at hlen
    simp only [List.length_nil] at hlen
    omega
  rcases orElse_cases h with h | ⟨_, h⟩
  · obtain ⟨l4, h⟩ := litCI_eq_some h
    obtain ⟨j, hj1, hj2, h⟩ := matchClass_eq_some h
    have hd2 : ∀ c ∈ l4.take j, isDigitChar c = true :=
      take_all_of_le_takeWhile hj2
    have hamt := kFromSwap_amount h
    constructor
    · rw [hamt]
      simp [hne1]
    · intro c hc
      rw [hamt] at hc
      rcases List.mem_append.mp hc with hc | hc
      · rcases List.mem_append.mp hc with hc | hc
        · exact Or.inl (hd1 c hc)
        · right
          have : strL "." = '.' :: [] := rfl
          rw [this] at hc
          simpa using hc
      · exact Or.inl (hd2 c hc)
  · have hamt := kFromSwap_amount h
    rw [hamt]
    exact ⟨hne1, fun c hc => Or.inl (hd1 c hc)⟩

theorem parseSwapRequest_numeric {t : List Char} {r : SwapParsed}
    (h : parseSwapRequest t = some r) :
    r.amountRaw ≠ [] ∧
    ∀ c ∈ r.amountRaw, isDigitChar c = true ∨ c = '.' := by
  unfold parseSwapRequest at h
  cases hscan : scanBdry matchSwapAt none t with
  | none => rw [hscan] at h; simp at h
  | some trip =>
    rw [hscan] at h
    obtain ⟨a, f, t2⟩ := trip
    simp only [Option.some.injEq] at h
    obtain ⟨suffix, hat⟩ := scanBdry_eq_some hscan
    have hnum := matchSwapAt_amount hat
    rw [← h]
    exact hnum

/-- C6: `"swap 0.1 ao to ario"` parses to the expected swap request;
the swap parser accepts only numeric amounts (every parsed amount is a
non-empty string of digits and points), so an all/max amount clause
never parses; on `"swap all ao to ario"` the parser fails and the swap
branch answers with the usage hint and submits nothing. -/
theorem claimC6_parseSwap :
    parseSwapRequest (strL "swap 0.1 ao to ario") =
      some { amountRaw := strL "0.1", fromSymbol := strL "ao",
             toSymbol := strL "ario" } ∧
    (∀ (t : List Char) (r : SwapParsed), parseSwapRequest t = some r →
      r.amountRaw ≠ [] ∧
      ∀ c ∈ r.amountRaw, isDigitChar c = true ∨ c = '.') ∧
    parseSwapRequest (strL "swap all ao to ario") = none ∧
    (processMessageFast defaultConfig cexOracles cexSwapExec cexListExec
        (strL "swap all ao to ario")).1 = RouteTag.swap ∧
    (processMessageFast defaultConfig cexOracles cexSwapExec cexListExec
        (strL "swap all ao to ario")).2 = ⟨swapHintMsg, []⟩ := by
  refine ⟨by decide, ?_, by decide, by decide, by decide⟩
  intro t r h
  exact parseSwapRequest_numeric h

/-- Witness for C6: the numeric-amount property instantiated at the
concrete parse of `"swap 0.1 ao to ario"`. -/
theorem claimC6_witness :
    (strL "0.1" : List Char) ≠ [] ∧
    ∀ c ∈ (strL "0.1" : List Char), isDigitChar c = true ∨ c = '.' := by
  have h := claimC6_parseSwap.2.1 (strL "swap 0.1 ao to ario")
    { amountRaw := strL "0.1", fromSymbol := strL "ao",
      toSymbol := strL "ario" } (by decide)
  exact h

/-- C5: `"send 0.1 AO to <40-char addr>"` parses to the expected
transfer request with case preserved and `isAll := false`; and for every
recipient of at least 20 address-class characters,
`"send all my usda to <addr>"` parses with `isAll := true`, token
`"usda"` and the whole recipient captured. -/
theorem claimC5_parseTransfer :
    parseTransferRequest
      (strL "send 0.1 AO to 9f8e7d6c5b4a3f2e1d0c9b8a7f6e5d4c3b2a1f0e") =
      some { amountRaw := strL "0.1",
             recipient := strL "9f8e7d6c5b4a3f2e1d0c9b8a7f6e5d4c3b2a1f0e",
             isAll := false, tokenSymbol := strL "AO" } ∧
    ∀ (addr : List Char), (∀ c ∈ addr, tokenChar c = true) →
      20 ≤ addr.length →
      parseTransferRequest (strL "send all my usda to " ++ addr) =
        some { amountRaw := strL "all", recipient := addr, isAll := true,
               tokenSymbol := strL "usda" } := by
  refine ⟨by decide, ?_⟩
  intro addr hcls hlen
  have hspn : addr.takeWhile isSpaceChar = [] :=
    takeWhile_nil_of (fun c hc => tokenChar_not_space (hcls c hc))
  have hrec : kRecAll (strL "usda") (strL " to " ++ addr) =
      some (strL "usda", addr) := by
    unfold kRecAll
    have h1 : ∀ {R : Type} (k : List Char → Option R),
        spaces1 (strL " to " ++ addr) k = k (strL "to " ++ addr) :=
      fun {R} k => rfl
    rw [h1]
    have h2 : ∀ {R : Type} (k : List Char → Option R),
        litCI (strL "to") (strL "to " ++ addr) k = k (strL " " ++ addr) :=
      fun {R} k => rfl
    rw [h2]
    have h3 : ∀ {R : Type} (k : List Char → Option R),
        spaces1 (strL " " ++ addr) k = k addr := by
      intro R k
      have he : strL " " ++ addr = ' ' :: addr := rfl
      rw [he]
      exact spaces1_single (by decide) hspn
    rw [h3]
    exact matchClass_full hcls hlen rfl
  have htok : kTokAll (strL "usda") (strL " to " ++ addr) =
      some (strL "usda", addr) := by
    unfold kTokAll
    have hfail : (spaces1 (strL " to " ++ addr) fun l2 =>
        litCI (strL "token") l2 fun l3 =>
          ((litCI (strL "s") l3 fun l4 => kRecAll (strL "usda") l4) <|>
            kRecAll (strL "usda") l3)) = none := rfl
    rw [hfail, hrec]
    rfl
  have halias : matchClass tokenChar 2 (strL "usda to " ++ addr) kTokAll =
      some (strL "usda", addr) := by
    have hrun : (strL "usda to " ++ addr).takeWhile tokenChar =
        strL "usda" := rfl
    unfold matchClass
    rw [hrun]
    rw [if_neg (by decide)]
    apply tryDesc_first
    have he : 2 + ((strL "usda").length - 2) = 4 := by decide
    rw [he]
    have ht : (strL "usda to " ++ addr).take 4 = strL "usda" := rfl
    have hd : (strL "usda to " ++ addr).drop 4 = strL " to " ++ addr := rfl
    rw [ht, hd]
    exact htok
  have hafter : kAfterAll (strL " my usda to " ++ addr) =
      some (strL "usda", addr) := by
    unfold kAfterAll
    have h1 : ∀ {R : Type} (k : List Char → Option R),
        spaces1 (strL " my usda to " ++ addr) k =
          k (strL "my usda to " ++ addr) :=
      fun {R} k => rfl
    rw [h1]
    have h2 : ∀ {R : Type} (k : List Char → Option R),
        litCI (strL "my") (strL "my usda to " ++ addr) k =
          k (strL " usda to " ++ addr) :=
      fun {R} k => rfl
    rw [h2]
    have h3 : ∀ {R : Type} (k : List Char → Option R),
        spaces1 (strL " usda to " ++ addr) k =
          k (strL "usda to " ++ addr) :=
      fun {R} k => rfl
    rw [h3]
    rw [halias]
    rfl
  have hmain : matchTransferAllAt (strL "send all my usda to " ++ addr) =
      some (strL "usda", addr) := by
    unfold matchTransferAllAt
    have h1 : ∀ {R : Type} (k : List Char → Option R),
        litCI (strL "send") (strL "send all my usda to " ++ addr) k =
          k (strL " all my usda to " ++ addr) :=
      fun {R} k => rfl
    rw [h1]
    unfold kVerbAll
    have h2 : ∀ {R : Type} (k : List Char → Option R),
        spaces1 (strL " all my usda to " ++ addr) k =
          k (strL "all my usda to " ++ addr) :=
      fun {R} k => rfl
    rw [h2]
    have h3 : ∀ {R : Type} (k : List Char → Option R),
        litCI (strL "all") (strL "all my usda to " ++ addr) k =
          k (strL " my usda to " ++ addr) :=
      fun {R} k => rfl
    rw [h3]
    rw [hafter]
    rfl
  unfold parseTransferRequest
  rw [scanBdry_first hmain (by decide)]

/-- Witness for C5 at a concrete 24-character recipient. -/
theorem claimC5_witness :
    parseTransferRequest
      (strL "send all my usda to " ++ strL "9f8e7d6c5b4a3f2e1d0c9b8a") =
      some { amountRaw := strL "all",
             recipient := strL "9f8e7d6c5b4a3f2e1d0c9b8a", isAll := true,
             tokenSymbol := strL "usda" } :=
  claimC5_parseTransfer.2 (strL "9f8e7d6c5b4a3f2e1d0c9b8a") (by decide)
    (by decide)

/-- Witness for C3 at `x = 0.1`, `d = 12`. -/
theorem claimC3_witness :
    (formatAmountWithDecimals (natChars (toBaseUnits ⟨1, 1⟩ 12)) 12 =
      (⟨1, 1⟩ : Dec).render) ∧
    |(formatAmountDec ⟨toBaseUnits ⟨1, 1⟩ 12, 0⟩ 12).val -
      (⟨1, 1⟩ : Dec).val| < 1 / 10 ^ 6 :=
  ⟨(claimC3_roundtrip ⟨1, 1⟩ 12 (by decide) (by decide) (by decide)).1
     (by decide),
   (claimC3_roundtrip ⟨1, 1⟩ 12 (by decide) (by decide) (by decide)).2⟩

end Flowly
